import Mathlib

set_option maxHeartbeats 1000000
set_option maxRecDepth 4000

/-!
Shallow embedding of `pitchscrape/events/whoscored/fetch.py` (class `WhoScoredScraper`).

Python values harvested from the page's JSON blob are modelled by `JVal`
(`null` stands for both JSON null and pandas `NaN`), Python dictionaries by
association lists (`Dict`), pandas DataFrames by a column-name list plus one
total cell function per row (`DF`), and Python exceptions by `Except String`.
Browser I/O (selenium calls) is modelled by explicit oracle arguments holding
the value the call would return, or the exception it would raise.
-/

inductive JVal where
  | null : JVal
  | bool : Bool → JVal
  | str : String → JVal
  | int : Int → JVal
  | obj : List (String × JVal) → JVal
  | arr : List JVal → JVal

abbrev Dict := List (String × JVal)

-- Structural equality, modelling Python `==` on harvested JSON values.
mutual
def JVal.beq : JVal → JVal → Bool
  | JVal.null, JVal.null => true
  | JVal.bool a, JVal.bool b => a == b
  | JVal.str a, JVal.str b => a == b
  | JVal.int a, JVal.int b => a == b
  | JVal.obj a, JVal.obj b => JVal.beqFields a b
  | JVal.arr a, JVal.arr b => JVal.beqItems a b
  | _, _ => false
def JVal.beqFields : List (String × JVal) → List (String × JVal) → Bool
  | [], [] => true
  | (k, v) :: xs, (k', v') :: ys => k == k' && JVal.beq v v' && JVal.beqFields xs ys
  | _, _ => false
def JVal.beqItems : List JVal → List JVal → Bool
  | [], [] => true
  | x :: xs, y :: ys => JVal.beq x y && JVal.beqItems xs ys
  | _, _ => false
end

def JVal.isNull : JVal → Bool
  | JVal.null => true
  | _ => false

/-- Python `d[k] = v` on a dict: replace the value in place if the key exists,
append the binding otherwise. -/
def dictSet : Dict → String → JVal → Dict
  | [], k, v => [(k, v)]
  | p :: t, k, v => if p.1 = k then (k, v) :: t else p :: dictSet t k v

/-- All bindings of a dict except key `k` (used to state frame conditions). -/
def eraseK (d : Dict) (k : String) : Dict := d.filter (fun p => p.1 != k)

/-- Raise the given exception when the optional value is absent. -/
def req {α : Type} (o : Option α) (msg : String) : Except String α :=
  match o with
  | some a => Except.ok a
  | none => Except.error msg

def asObjE (v : JVal) : Except String Dict :=
  match v with
  | JVal.obj fs => Except.ok fs
  | _ => Except.error "TypeError: not a dict"

def exIsErr {α : Type} : Except String α → Bool
  | Except.ok _ => false
  | Except.error _ => true

/-! ### The DataFrame model

A `DF` stores the column labels (in order, duplicates possible as in pandas)
and the rows; each row is a total function from column name to cell, missing
cells reading as `JVal.null` (pandas `NaN`).  `getCol` is `df[c]`,
`setCol` is `df[c] = series` (positionally aligned, as all series assigned in
the source are fresh `RangeIndex` series of the same length). -/

structure DF where
  cols : List String
  rows : List (String → JVal)

def getCol (df : DF) (c : String) : Option (List JVal) :=
  if df.cols.contains c then some (df.rows.map (fun r => r c)) else none

def setCol (df : DF) (c : String) (vs : List JVal) : DF :=
  { cols := if df.cols.contains c then df.cols else df.cols ++ [c],
    rows := List.zipWith (fun r v => fun c' => if c' = c then v else r c') df.rows vs }

/-- `df.insert(pos, c, vs)`: raises when the column already exists. -/
def insertColAt (df : DF) (pos : Nat) (c : String) (vs : List JVal) :
    Except String DF :=
  if df.cols.contains c then Except.error "ValueError: cannot insert, already exists"
  else Except.ok
    { cols := df.cols.take pos ++ c :: df.cols.drop pos,
      rows := List.zipWith (fun r v => fun c' => if c' = c then v else r c') df.rows vs }

/-- One column appended by `pd.concat(axis=1)`.  When the label already exists
the label list gains a duplicate but lookups keep seeing the first occurrence,
mirroring positional label lookup. -/
def appendCol (df : DF) (c : String) (vs : List JVal) : DF :=
  if df.cols.contains c then { df with cols := df.cols ++ [c] }
  else { cols := df.cols ++ [c],
         rows := List.zipWith (fun r v => fun c' => if c' = c then v else r c') df.rows vs }

def concatCols (df : DF) (newCols : List (String × List JVal)) : DF :=
  newCols.foldl (fun acc p => appendCol acc p.1 p.2) df

/-- Column-label union in order of first appearance, as `pd.DataFrame(dicts)`. -/
def unionKeys (es : List Dict) : List String :=
  es.foldl (fun acc e =>
    e.foldl (fun acc2 p => if acc2.contains p.1 then acc2 else acc2 ++ [p.1]) acc) []

/-- `pd.DataFrame(list_of_dicts)`: one row per dict, `NaN` for missing keys. -/
def pdDF (es : List Dict) : DF :=
  { cols := unionKeys es,
    rows := es.map (fun e => fun c => (List.lookup c e).getD JVal.null) }

def cellAt (df : DF) (c : String) (i : Nat) : JVal :=
  ((getCol df c).getD []).getD i JVal.null

def colAllNonNull (df : DF) (c : String) : Bool :=
  match getCol df c with
  | some l => l.all (fun v => !(JVal.isNull v))
  | none => false

/-! ### `standardize_date` (fetch.py lines 200-277)

Python mutates the retained match dicts in place, so the embedding threads an
explicit heap: a `Store` of dicts, with the input list holding references
(indices) into it.  The function returns the post-state of the heap together
with the references of the retained matches. -/

abbrev Store := List Dict

def MONTH_MAPPINGS : List (String × String) :=
  [("Jan", "Jan"), ("Feb", "Feb"), ("Mar", "Mar"), ("Apr", "Apr"),
   ("May", "May"), ("Jun", "Jun"), ("Jul", "Jul"), ("Aug", "Aug"),
   ("Sep", "Sep"), ("Oct", "Oct"), ("Nov", "Nov"), ("Dec", "Dec"),
   ("Mac", "Mar"), ("Mei", "May"), ("Ago", "Aug"), ("Okt", "Oct"), ("Des", "Dec")]

-- Python `str.split()` splits on runs of whitespace and drops empty pieces.
def splitW : List Char → List (List Char)
  | [] => [[]]
  | c :: cs =>
    let r := splitW cs
    if c.isWhitespace then [] :: r
    else (c :: r.headD []) :: r.tail

def pySplit (s : String) : List String :=
  ((splitW s.toList).filter (fun w => !w.isEmpty)).map (fun w => String.mk w)

/-- The per-date translation of lines 247-268: skip dates containing `?`,
skip dates with fewer than three components, skip unknown month
abbreviations, otherwise rejoin the mapped month with the day and year. -/
def stdDateStr (s : String) : Option String :=
  if s.toList.contains '?' then none
  else
    let comps := pySplit s
    if comps.length < 3 then none
    else
      match List.lookup (comps.getD 0 "") MONTH_MAPPINGS with
      | some m => some (m ++ " " ++ comps.getD 1 "" ++ " " ++ comps.getD 2 "")
      | none => none

/-- One iteration of the `for match in match_data` loop: `none` means the
match is skipped, `some d'` that the (mutated) dict is retained.  A non-string
`date` value raises `TypeError` out of the loop (`"?" in date_string`). -/
def stdProcess (d : Dict) : Except String (Option Dict) := do
  let ds ← (match List.lookup "date" d with
            | none => Except.ok ""
            | some (JVal.str s) => Except.ok s
            | some _ => Except.error "TypeError: argument is not iterable")
  Except.ok ((stdDateStr ds).map (fun std => dictSet d "date" (JVal.str std)))

def stdLoop : Store → List Nat → Except String (Store × List Nat)
  | store, [] => Except.ok (store, [])
  | store, r :: rs => do
    match ← stdProcess (store.getD r []) with
    | none => stdLoop store rs
    | some d' => do
        let (s', ret) ← stdLoop (store.set r d') rs
        Except.ok (s', r :: ret)

def standardize_date (store : Store) (refs : List Nat) :
    Except String (Store × List Nat) :=
  if refs.isEmpty then Except.error "ValueError: Empty match data provided"
  else stdLoop store refs

/-! ### `filter_team_matches` (fetch.py lines 446-489) -/

/-- `team_name in (match.get("home"), match.get("away"))`. -/
def teamIn (m : Dict) (t : String) : Bool :=
  (match List.lookup "home" m with
   | some (JVal.str s) => s == t
   | _ => false) ||
  (match List.lookup "away" m with
   | some (JVal.str s) => s == t
   | _ => false)

/-- Insertion into a Python dict: an existing key keeps its position but takes
the new value, a fresh key is appended. -/
def odictInsert : List (JVal × Dict) → JVal → Dict → List (JVal × Dict)
  | [], k, v => [(k, v)]
  | p :: t, k, v => if JVal.beq p.1 k then (p.1, v) :: t else p :: odictInsert t k v

def filter_team_matches (matchUrls : List Dict) (teamName : String) :
    Except String (List Dict) :=
  if matchUrls.isEmpty then Except.error "ValueError: Empty match URLs provided"
  else if teamName == "" then Except.error "ValueError: Team name cannot be empty"
  else do
    let teamMatches ← matchUrls.foldlM (fun acc m =>
        if teamIn m teamName then do
          let u ← req (List.lookup "url" m) "KeyError: url"
          Except.ok (odictInsert acc u m)
        else Except.ok acc) []
    if teamMatches.isEmpty then
      Except.error ("ValueError: No matches found for team: " ++ teamName)
    else Except.ok (teamMatches.map Prod.snd)

/-! ### `fetch_match_overview` (fetch.py lines 491-565)

The DOM is abstracted to the elements the code reads: anchors with an
optional `href`, their `span` texts and their text; rows with their anchor
list and an optional teams container; date sections with an optional header
and their match rows.  The pagination loop is modelled by the finite sequence
of page states seen until the page stops changing. -/

structure Anchor where
  href : Option String
  spans : List String
  text : String

structure RowDom where
  anchors : List Anchor
  teamAnchors : Option (List Anchor)

structure SectionDom where
  header : Option String
  matchRows : List RowDom

abbrev Fixture := List (String × String)

def listContainsSub (needle : List Char) : List Char → Bool
  | [] => needle.isEmpty
  | c :: cs => needle.isPrefixOf (c :: cs) || listContainsSub needle cs

/-- Python `needle in hay` on strings. -/
def strContainsSub (hay needle : String) : Bool :=
  listContainsSub needle.toList hay.toList

def processMatchRow (dateHeader : String) (row : RowDom) :
    Except String (Option Fixture) := do
  let matchLink ← req row.anchors.head? "NoSuchElementException: a"
  let href ← req matchLink.href "TypeError: argument of type NoneType"
  if strContainsSub href "Live" then do
    let teams ← req row.teamAnchors "NoSuchElementException: teams container"
    let home ← req (teams.get? 0) "IndexError: list index out of range"
    let away ← req (teams.get? 1) "IndexError: list index out of range"
    Except.ok (some
      [("date", dateHeader), ("home", home.text), ("away", away.text),
       ("score", String.intercalate ":" matchLink.spans), ("url", href)])
  else Except.ok none

def processSection (sec : SectionDom) : Except String (List Fixture) := do
  let hdr ← req sec.header "NoSuchElementException: header"
  sec.matchRows.foldlM (fun acc row => do
      let f ← processMatchRow hdr row
      Except.ok (match f with
                 | some fx => acc ++ [fx]
                 | none => acc)) []

def fetch_match_overview (pages : List (List SectionDom)) :
    Except String (List Fixture) :=
  pages.foldlM (fun acc page =>
    page.foldlM (fun acc2 sec => do
        let fs ← processSection sec
        Except.ok (acc2 ++ fs)) acc) []

/-! ### `extract_match_details` (fetch.py lines 705-783) -/

def MATCH_COLUMNS : List (String × String) :=
  [("matchId", "Match Identifier"), ("attendance", "Stadium Attendance"),
   ("venueName", "Stadium Name"), ("startTime", "Kickoff Time"),
   ("startDate", "Match Date"), ("score", "Final Score"),
   ("home", "Home Team"), ("away", "Away Team"), ("referee", "Match Referee")]

/-- Python truthiness of a harvested value (`if not input_data`). -/
def jFalsy (v : JVal) : Bool :=
  match v with
  | JVal.null => true
  | JVal.bool b => !b
  | JVal.str s => s.isEmpty
  | JVal.int n => n == 0
  | JVal.obj fs => fs.isEmpty
  | JVal.arr xs => xs.isEmpty

/-- `isinstance(x, dict)`. -/
def isObjB (v : JVal) : Bool :=
  match v with
  | JVal.obj _ => true
  | _ => false

def unObj (v : JVal) : Dict :=
  match v with
  | JVal.obj d => d
  | _ => []

def validateMatchData (input : JVal) : Except String (List Dict) :=
  if jFalsy input then Except.error "ValueError: Empty match data provided"
  else match input with
  | JVal.obj d => Except.ok [d]
  | JVal.arr xs =>
      if xs.all isObjB then Except.ok (xs.map unObj)
      else Except.error "ValueError: All elements must be dictionaries"
  | _ => Except.error "ValueError: Expected dict or list of dicts"

/-- `df[cols]`: the `KeyError` on a missing column is converted to a
`ValueError` by the surrounding handler in the source. -/
def selectCols (df : DF) (ks : List String) : Except String DF :=
  if ks.all (fun k => df.cols.contains k) then Except.ok { cols := ks, rows := df.rows }
  else Except.error "ValueError: Required match column missing"

def renameBack (m : List (String × String)) (c : String) : String :=
  match m.find? (fun p => p.2 == c) with
  | some p => p.1
  | none => c

def renameCols (df : DF) (m : List (String × String)) : DF :=
  { cols := df.cols.map (fun c => (List.lookup c m).getD c),
    rows := df.rows.map (fun r => fun c => r (renameBack m c)) }

/-- A DataFrame with a named index, the result of `set_index`. -/
structure IndexedDF where
  idxName : String
  idxVals : List JVal
  table : DF

def setIndex (df : DF) (c : String) : Except String IndexedDF := do
  let vals ← req (getCol df c) "KeyError: set_index"
  Except.ok { idxName := c, idxVals := vals,
              table := { cols := df.cols.erase c, rows := df.rows } }

/-- `fillna(np.nan)` leaves every cell as it is; it is omitted. -/
def extract_match_details (matchData : JVal) : Except String IndexedDF := do
  let validated ← validateMatchData matchData
  let df := pdDF validated
  let sel ← selectCols df (MATCH_COLUMNS.map Prod.fst)
  let ren := renameCols sel MATCH_COLUMNS
  setIndex ren "Match Identifier"

def emdIdxName (input : JVal) : Option String :=
  (extract_match_details input).toOption.map IndexedDF.idxName
def emdIdxVals (input : JVal) : Option (List JVal) :=
  (extract_match_details input).toOption.map IndexedDF.idxVals
def emdCols (input : JVal) : Option (List String) :=
  (extract_match_details input).toOption.map (fun o => o.table.cols)
def emdColCells (input : JVal) (label : String) : Option (List JVal) :=
  (extract_match_details input).toOption.bind (fun o => getCol o.table label)

/-! ### `extract_events` (fetch.py lines 785-921) -/

def nineKeys : List String :=
  ["matchId", "startDate", "startTime", "score", "ftScore", "htScore",
   "etScore", "venueName", "maxMinute"]

def nineKVs (md : Dict) : Except String (List (String × JVal)) :=
  nineKeys.mapM (fun k => do
    let v ← req (List.lookup k md) ("KeyError: " ++ k)
    Except.ok (k, v))

/-- `pd.json_normalize` flattens nested dict values into dotted column names,
so under the plain key only a non-dict value survives. -/
def scalarLookup (fs : Dict) (k : String) : Option JVal :=
  match List.lookup k fs with
  | some (JVal.obj _) => none
  | some v => some v
  | none => none

/-- `df[c] = pd.json_normalize(df[c])["displayName"]` (lines 811-820): every
cell must be a dict, and at least one must carry a non-dict `displayName`. -/
def normalizeDN (df : DF) (c : String) : Except String DF := do
  let vals ← req (getCol df c) ("KeyError: " ++ c)
  let fss ← vals.mapM asObjE
  let dns := fss.map (fun fs => scalarLookup fs "displayName")
  if dns.all Option.isNone then Except.error "KeyError: displayName"
  else Except.ok (setCol df c (dns.map (fun o => o.getD JVal.null)))

/-- Lines 822-827: missing column, or a normalized frame without a
`displayName` column, falls to the `except KeyError` branch setting the whole
column to `False`; otherwise `NaN` cells are filled with `{}` first and
missing display names with `False` afterwards. -/
def cleanCardType (df : DF) : Except String DF :=
  match getCol df "cardType" with
  | none => Except.ok (setCol df "cardType"
      (List.replicate df.rows.length (JVal.bool false)))
  | some vals => do
      let x := vals.map (fun v => match v with
                                  | JVal.null => JVal.obj []
                                  | v => v)
      let fss ← x.mapM asObjE
      let dns := fss.map (fun fs => scalarLookup fs "displayName")
      if dns.all Option.isNone then
        Except.ok (setCol df "cardType"
          (List.replicate df.rows.length (JVal.bool false)))
      else
        Except.ok (setCol df "cardType" (dns.map (fun o =>
          match o with
          | some JVal.null => JVal.bool false
          | some v => v
          | none => JVal.bool false)))

/-- Lines 829-835: each satisfied-event code is replaced by the key of
`matchCentreEventTypeJson` holding that code. -/
def cleanSats (df : DF) (etDict : Dict) : Except String DF := do
  let vals ← req (getCol df "satisfiedEventsTypes") "KeyError: satisfiedEventsTypes"
  let etKeys := etDict.map Prod.fst
  let etVals := etDict.map Prod.snd
  let newVals ← vals.mapM (fun v => do
      let xs ← (match v with
                | JVal.arr xs => Except.ok xs
                | _ => Except.error "TypeError: not iterable")
      let ks ← xs.mapM (fun ev =>
          match etVals.findIdx? (fun w => JVal.beq w ev) with
          | some i => Except.ok (JVal.str (etKeys.getD i ""))
          | none => Except.error "ValueError: x not in list")
      Except.ok (JVal.arr ks))
  Except.ok (setCol df "satisfiedEventsTypes" newVals)

/-- Result of cleaning one `qualifiers` cell (lines 838-845): `done` when the
whole list is cleaned, `aborted` on a `TypeError` (caught: the loop over rows
stops, keeping the partial mutation), `failed` on an uncaught exception. -/
inductive QStep where
  | done : JVal → QStep
  | aborted : JVal → QStep
  | failed : String → QStep

def cleanQualList : List JVal → List JVal → QStep
  | [], acc => QStep.done (JVal.arr acc.reverse)
  | q :: rest, acc =>
    match q with
    | JVal.obj fs =>
      match List.lookup "type" fs with
      | some (JVal.obj tfs) =>
        (match List.lookup "displayName" tfs with
         | some dn => cleanQualList rest (JVal.obj (dictSet fs "type" dn) :: acc)
         | none => QStep.failed "KeyError: displayName")
      | some _ => QStep.aborted (JVal.arr (acc.reverse ++ (q :: rest)))
      | none => QStep.failed "KeyError: type"
    | _ => QStep.aborted (JVal.arr (acc.reverse ++ (q :: rest)))

/-- A `NaN` cell has no `.copy()` (`AttributeError`); a dict cell is copied
but indexing it with `0` raises `KeyError` unless it is empty; other
non-list cells have no `.copy()` either. -/
def cleanQualCell (v : JVal) : QStep :=
  match v with
  | JVal.arr qs => cleanQualList qs []
  | JVal.obj [] => QStep.done (JVal.obj [])
  | JVal.obj (_ :: _) => QStep.failed "KeyError: 0"
  | _ => QStep.failed "AttributeError: no copy"

def cleanQualRows : List JVal → List JVal → Except String (List JVal)
  | [], acc => Except.ok acc.reverse
  | v :: rest, acc =>
    match cleanQualCell v with
    | QStep.done c => cleanQualRows rest (c :: acc)
    | QStep.aborted c => Except.ok (acc.reverse ++ (c :: rest))
    | QStep.failed m => Except.error m

def cleanQualifiers (df : DF) : Except String DF := do
  let vals ← req (getCol df "qualifiers") "KeyError: qualifiers"
  let newVals ← cleanQualRows vals []
  Except.ok (setCol df "qualifiers" newVals)

/-- Lines 847-863: `NaN` is replaced by `False`; a wholly missing column
becomes all-`False`. -/
def cleanNaBool (df : DF) (c : String) : DF :=
  match getCol df c with
  | some vals => setCol df c (vals.map (fun v => match v with
      | JVal.null => JVal.bool false
      | v => v))
  | none => setCol df c (List.replicate df.rows.length (JVal.bool false))

/-- `.astype(int).astype(str)` on one non-`NaN` cell. -/
def intCast (v : JVal) : Except String JVal :=
  match v with
  | JVal.int n => Except.ok (JVal.str (toString n))
  | JVal.bool b => Except.ok (JVal.str (if b then "1" else "0"))
  | JVal.str s =>
      (match s.toInt? with
       | some n => Except.ok (JVal.str (toString n))
       | none => Except.error "ValueError: invalid literal for int")
  | _ => Except.error "TypeError: astype int"

def castPlayerId (df : DF) : Except String DF := do
  let vals ← req (getCol df "playerId") "AttributeError: playerId"
  let newVals ← vals.mapM (fun v => match v with
      | JVal.null => Except.ok JVal.null
      | v => intCast v)
  Except.ok (setCol df "playerId" newVals)

def addPlayerName (df : DF) (pid : Dict) : Except String DF := do
  let vals ← req (getCol df "playerId") "KeyError: playerId"
  let names := vals.map (fun v => match v with
      | JVal.str s => (List.lookup s pid).getD JVal.null
      | _ => JVal.null)
  let loc ← req (df.cols.indexOf? "playerId") "KeyError: get_loc"
  insertColAt df (loc + 1) "playerName" names

/-- Lines 883-888: the mapping dict `{homeId: "h", awayId: "a"}` gives the
away label priority when the two ids coincide. -/
def addHA (df : DF) (hid aid : JVal) : Except String DF := do
  let vals ← req (getCol df "teamId") "KeyError: teamId"
  let ha := vals.map (fun v =>
      if JVal.beq v aid then JVal.str "a"
      else if JVal.beq v hid then JVal.str "h"
      else JVal.null)
  let loc ← req (df.cols.indexOf? "teamId") "KeyError: get_loc"
  insertColAt df (loc + 1) "h_a" ha

def bodyParts : List String := ["RightFoot", "LeftFoot", "Head", "OtherBodyPart"]
def situations : List String := ["FromCorner", "SetPiece", "DirectFreekick"]

def pickBody (t : JVal) : Option JVal :=
  if bodyParts.any (fun s => JVal.beq t (JVal.str s)) then some t else none

def pickSituation (t : JVal) : Option JVal :=
  if situations.any (fun s => JVal.beq t (JVal.str s)) then some t
  else if JVal.beq t (JVal.str "RegularPlay") then some (JVal.str "OpenPlay")
  else none

/-- Lines 891-908: the column starts as all-`NaN` and, for each row whose
`isShot` equals `True`, takes the last matching qualifier type. -/
def shotColVals (df : DF) (pick : JVal → Option JVal) :
    Except String (List JVal) := do
  let shots ← req (getCol df "isShot") "AttributeError: isShot"
  let quals ← req (getCol df "qualifiers") "KeyError: qualifiers"
  (shots.zip quals).mapM (fun p =>
    if JVal.beq p.1 (JVal.bool true) then do
      let qs ← (match p.2 with
                | JVal.arr qs => Except.ok qs
                | _ => Except.error "TypeError: not iterable")
      qs.foldlM (fun acc q => do
          let fs ← (match q with
                    | JVal.obj fs => Except.ok fs
                    | _ => Except.error "TypeError: subscript")
          let t ← req (List.lookup "type" fs) "KeyError: type"
          Except.ok ((pick t).getD acc)) JVal.null
    else Except.ok JVal.null)

def shotCol (df : DF) (c : String) (pick : JVal → Option JVal) :
    Except String DF := do
  let vals ← shotColVals df pick
  Except.ok (setCol df c vals)

/-- Lines 910-919: one boolean membership column per event type, joined with
`pd.concat(axis=1)`. -/
def eventTypeCols (df : DF) (etDict : Dict) : Except String DF := do
  let vals ← req (getCol df "satisfiedEventsTypes") "KeyError: satisfiedEventsTypes"
  let newCols ← (etDict.map Prod.fst).mapM (fun k => do
      let cells ← vals.mapM (fun v =>
          match v with
          | JVal.arr xs => Except.ok (JVal.bool (xs.any (fun x => JVal.beq x (JVal.str k))))
          | _ => Except.error "TypeError: not iterable")
      Except.ok (k, cells))
  Except.ok (concatCols df newCols)

def extract_events (md : Dict) : Except String DF := do
  let evJ ← req (List.lookup "events" md) "KeyError: events"
  let evList ← (match evJ with
                | JVal.arr xs => Except.ok xs
                | _ => Except.error "TypeError: events")
  let evs ← evList.mapM asObjE
  let evs2 ← evs.mapM (fun e => do
      let kvs ← nineKVs md
      Except.ok (kvs.foldl (fun d p => dictSet d p.1 p.2) e))
  let df0 := pdDF evs2
  let df1 ← normalizeDN df0 "period"
  let df2 ← normalizeDN df1 "type"
  let df3 ← normalizeDN df2 "outcomeType"
  let df4 ← cleanCardType df3
  let etJ ← req (List.lookup "matchCentreEventTypeJson" md) "KeyError: matchCentreEventTypeJson"
  let etDict ← asObjE etJ
  let df5 ← cleanSats df4 etDict
  let df6 ← cleanQualifiers df5
  let df7 := cleanNaBool df6 "isShot"
  let df8 := cleanNaBool df7 "isGoal"
  let df9 ← castPlayerId df8
  let pidJ ← req (List.lookup "playerIdNameDictionary" md) "KeyError: playerIdNameDictionary"
  let pidDict ← asObjE pidJ
  let df10 ← addPlayerName df9 pidDict
  let homeJ ← req (List.lookup "home" md) "KeyError: home"
  let homeD ← asObjE homeJ
  let hid ← req (List.lookup "teamId" homeD) "KeyError: teamId"
  let awayJ ← req (List.lookup "away" md) "KeyError: away"
  let awayD ← asObjE awayJ
  let aid ← req (List.lookup "teamId" awayD) "KeyError: teamId"
  let df11 ← addHA df10 hid aid
  let df12 ← shotCol df11 "shotBodyType" pickBody
  let df13 ← shotCol df12 "situation" pickSituation
  eventTypeCols df13 etDict

/-! ### `fetch_match_events`, `collate_season_data`, `collate_season_events`
(fetch.py lines 923-1007)

The selenium-driven steps (`fetch_match_data`, `fetch_competitions`,
`fetch_matches`, `fetch_matches_data`) are browser I/O; each is modelled by an
oracle argument carrying the value it would return or the exception it would
raise.  Each `xxxBody` is the corresponding `try:` block; the function itself
is the `try`/`except Exception` wrapper returning `None` on failure. -/

def concatDFs (dfs : List DF) : DF :=
  { cols := dfs.foldl (fun acc d => acc ++ d.cols.filter (fun c => !(acc.contains c))) [],
    rows := dfs.foldl (fun acc d => acc ++ d.rows) [] }

def fetchMatchEventsBody (fetched : Except String JVal) :
    Except String (JVal × DF) := do
  let mdJ ← fetched
  let md ← asObjE mdJ
  let df ← extract_events md
  Except.ok (mdJ, df)

def fetch_match_events (fetched : Except String JVal) : Option JVal × Option DF :=
  match fetchMatchEventsBody fetched with
  | Except.ok (m, d) => (some m, some d)
  | Except.error _ => (none, none)

def collateSeasonDataBody (comps : Except String (List (String × String)))
    (fetchedMatches : Except String (List Dict)) (team : Option String)
    (fetchData : List Dict → Except String (List Dict)) :
    Except String (List Dict) := do
  let _ ← comps
  let murls ← fetchedMatches
  let murls2 ← (match team with
                | some t => filter_team_matches murls t
                | none => Except.ok murls)
  fetchData (murls2.take 2)

def collate_season_data (comps : Except String (List (String × String)))
    (fetchedMatches : Except String (List Dict)) (team : Option String)
    (fetchData : List Dict → Except String (List Dict)) : Option (List Dict) :=
  match collateSeasonDataBody comps fetchedMatches team fetchData with
  | Except.ok l => some l
  | Except.error _ => none

def collateSeasonEventsBody (comps : Except String (List (String × String)))
    (fetchedMatches : Except String (List Dict)) (team : Option String)
    (fetchData : List Dict → Except String (List Dict)) :
    Except String (Option DF) := do
  match collate_season_data comps fetchedMatches team fetchData with
  | none => Except.ok none
  | some [] => Except.ok none
  | some ms => do
      let dfs ← ms.mapM extract_events
      Except.ok (some (concatDFs dfs))

def collate_season_events (comps : Except String (List (String × String)))
    (fetchedMatches : Except String (List Dict)) (team : Option String)
    (fetchData : List Dict → Except String (List Dict)) : Option DF :=
  match collateSeasonEventsBody comps fetchedMatches team fetchData with
  | Except.ok r => r
  | Except.error _ => none

/-! ### Helper definitions used to state the claims -/

/-- The flattened display name of the nested object stored under `c`. -/
def dnCell (c : String) (ev : JVal) : JVal :=
  match ev with
  | JVal.obj e =>
    (match List.lookup c e with
     | some (JVal.obj fs) => (List.lookup "displayName" fs).getD JVal.null
     | _ => JVal.null)
  | _ => JVal.null

/-- Expected `cardType` cell: the display name when the event carries a card,
`False` otherwise. -/
def cardCell (ev : JVal) : JVal :=
  match ev with
  | JVal.obj e =>
    (match List.lookup "cardType" e with
     | some (JVal.obj fs) => (List.lookup "displayName" fs).getD (JVal.bool false)
     | some _ => JVal.null
     | none => JVal.bool false)
  | _ => JVal.null

def dnOK (e : Dict) (c : String) : Bool :=
  match List.lookup c e with
  | some (JVal.obj fs) =>
      (match List.lookup "displayName" fs with
       | some (JVal.str _) => true
       | _ => false)
  | _ => false

def cardOK (e : Dict) : Bool :=
  match List.lookup "cardType" e with
  | none => true
  | some (JVal.obj fs) =>
      (match List.lookup "displayName" fs with
       | some (JVal.str _) => true
       | _ => false)
  | some _ => false

/-- Hypothesis of the flattening claim: every event is a dict whose `period`,
`type` and `outcomeType` are dicts with a string `displayName`, and whose
`cardType`, when present, is too. -/
def flatOK (evJs : List JVal) : Bool :=
  evJs.all (fun ev => match ev with
    | JVal.obj e => dnOK e "period" && dnOK e "type" && dnOK e "outcomeType" && cardOK e
    | _ => false)

/-- Columns written by `extract_events` after the frame is built. -/
def touchedCols : List String :=
  ["period", "type", "outcomeType", "cardType", "satisfiedEventsTypes",
   "qualifiers", "isShot", "isGoal", "playerId", "playerName", "h_a",
   "shotBodyType", "situation"]

def etNamesOf (md : Dict) : List String :=
  match List.lookup "matchCentreEventTypeJson" md with
  | some (JVal.obj fs) => fs.map Prod.fst
  | _ => []

/-- True of columns `extract_events` copies verbatim from the events. -/
def untouchedB (md : Dict) (c : String) : Bool :=
  !(touchedCols.contains c) && !(nineKeys.contains c) && !((etNamesOf md).contains c)

/-- The event at index `i` exists, is a dict, and lacks key `k`. -/
def evLacks (evJs : List JVal) (i : Nat) (k : String) : Bool :=
  match evJs.getD i (JVal.str "missing") with
  | JVal.obj e => (List.lookup k e).isNone
  | _ => false

/-- The cell an untouched column takes from an event. -/
def evCellOf (c : String) (ev : JVal) : JVal :=
  match ev with
  | JVal.obj e => (List.lookup c e).getD JVal.null
  | _ => JVal.null

/-- The `date` string a match dict presents to `standardize_date`. -/
def dateStrD (d : Dict) : String :=
  match List.lookup "date" d with
  | some (JVal.str s) => s
  | _ => ""

def jvNodup : List JVal → Bool
  | [] => true
  | x :: xs => !(xs.any (fun y => JVal.beq x y)) && jvNodup xs

def urlOfD (m : Dict) : JVal := (List.lookup "url" m).getD JVal.null

/-! ### Concrete inputs used by the witnesses -/

def wEvent1 : Dict :=
  [("eventId", JVal.int 11), ("teamId", JVal.int 100), ("playerId", JVal.int 7),
   ("period", JVal.obj [("value", JVal.int 1), ("displayName", JVal.str "FirstHalf")]),
   ("type", JVal.obj [("value", JVal.int 30), ("displayName", JVal.str "Pass")]),
   ("outcomeType", JVal.obj [("value", JVal.int 1), ("displayName", JVal.str "Successful")]),
   ("satisfiedEventsTypes", JVal.arr []),
   ("qualifiers", JVal.arr [])]

def wEvent2 : Dict :=
  [("eventId", JVal.int 12), ("teamId", JVal.int 200), ("playerId", JVal.null),
   ("period", JVal.obj [("value", JVal.int 2), ("displayName", JVal.str "SecondHalf")]),
   ("type", JVal.obj [("value", JVal.int 17), ("displayName", JVal.str "Card")]),
   ("outcomeType", JVal.obj [("value", JVal.int 1), ("displayName", JVal.str "Successful")]),
   ("cardType", JVal.obj [("value", JVal.int 31), ("displayName", JVal.str "Yellow")]),
   ("satisfiedEventsTypes", JVal.arr []),
   ("qualifiers", JVal.arr [])]

def wMd : Dict :=
  [("events", JVal.arr [JVal.obj wEvent1, JVal.obj wEvent2]),
   ("matchId", JVal.int 77), ("startDate", JVal.str "2024-01-01"),
   ("startTime", JVal.str "20:00"), ("score", JVal.str "1 : 0"),
   ("ftScore", JVal.str "1 : 0"), ("htScore", JVal.str "0 : 0"),
   ("etScore", JVal.str ""), ("venueName", JVal.str "Camp Nou"),
   ("maxMinute", JVal.int 94),
   ("matchCentreEventTypeJson", JVal.obj [("shotSixYardBox", JVal.int 0)]),
   ("playerIdNameDictionary", JVal.obj [("7", JVal.str "Pedri")]),
   ("home", JVal.obj [("teamId", JVal.int 100)]),
   ("away", JVal.obj [("teamId", JVal.int 200)])]

def wDf : DF :=
  match extract_events wMd with
  | Except.ok df => df
  | Except.error _ => { cols := [], rows := [] }

def wMatch1 : Dict :=
  [("matchId", JVal.int 1), ("attendance", JVal.int 90000),
   ("venueName", JVal.str "Camp Nou"), ("startTime", JVal.str "20:00"),
   ("startDate", JVal.str "2024-01-01"), ("score", JVal.str "2 : 1"),
   ("home", JVal.str "Barcelona"), ("away", JVal.str "Real Madrid"),
   ("referee", JVal.str "Lahoz")]

/-- Same match but with no `referee` key. -/
def wMatch2 : Dict :=
  [("matchId", JVal.int 2), ("attendance", JVal.int 50000),
   ("venueName", JVal.str "Anoeta"), ("startTime", JVal.str "18:00"),
   ("startDate", JVal.str "2024-01-02"), ("score", JVal.str "0 : 0"),
   ("home", JVal.str "Real Sociedad"), ("away", JVal.str "Valencia")]

def wUrl1 : Dict :=
  [("url", JVal.str "m1"), ("home", JVal.str "Barcelona"), ("away", JVal.str "Real Madrid")]
def wUrl2 : Dict :=
  [("url", JVal.str "m2"), ("home", JVal.str "Barcelona"), ("away", JVal.str "Valencia")]

/-- Two matches of the same team sharing one `url` value. -/
def wDup1 : Dict :=
  [("url", JVal.str "m1"), ("home", JVal.str "Barcelona"), ("away", JVal.str "Real Madrid")]
def wDup2 : Dict :=
  [("url", JVal.str "m1"), ("home", JVal.str "Barcelona"), ("away", JVal.str "Valencia")]

def wAnchor : Anchor :=
  { href := some "https://x/Live/abc", spans := ["2", "1"], text := "match" }
def wRow : RowDom :=
  { anchors := [wAnchor],
    teamAnchors := some [{ href := none, spans := [], text := "Barcelona" },
                         { href := none, spans := [], text := "Valencia" }] }
def wSection : SectionDom :=
  { header := some "Saturday, Jan 13 2024", matchRows := [wRow] }
def wPages : List (List SectionDom) := [[wSection]]

/-- The fixture scraped from `wPages`. -/
def wFx : Fixture :=
  [("date", "Saturday, Jan 13 2024"), ("home", "Barcelona"),
   ("away", "Valencia"), ("score", "2:1"), ("url", "https://x/Live/abc")]

def wStore : Store :=
  [[("date", JVal.str "Okt 15 2023"), ("url", JVal.str "m1")],
   [("date", JVal.str "? ? ?"), ("url", JVal.str "m2")]]
def wStdOut : Store × List Nat :=
  match standardize_date wStore [0, 1] with
  | Except.ok p => p
  | Except.error _ => ([], [])

/-- One pipeline step of `extract_events` rewrites only the columns in `ts`:
the row count is kept, existing column labels survive, and reading any column
outside `ts` is unchanged. -/
def Preserves (df df' : DF) (ts : List String) : Prop :=
  df'.rows.length = df.rows.length ∧
  (∀ c, df.cols.contains c = true → df'.cols.contains c = true) ∧
  (∀ c, ts.contains c = false → getCol df' c = getCol df c)

/-! ## Theorems

### Utility lemmas -/

theorem exbind_ok {α β : Type} {x : Except String α} {f : α → Except String β}
    {b : β} (h : (x >>= f) = Except.ok b) :
    ∃ a, x = Except.ok a ∧ f a = Except.ok b := by
  cases x with
  | ok a => exact ⟨a, rfl, h⟩
  | error e => simp [Bind.bind, Except.bind] at h

theorem req_ok {α : Type} {o : Option α} {msg : String} {a : α}
    (h : req o msg = Except.ok a) : o = some a := by
  cases o with
  | none => simp [req] at h
  | some x => simpa [req] using h

theorem asObjE_ok {v : JVal} {fs : Dict} (h : asObjE v = Except.ok fs) :
    v = JVal.obj fs := by
  cases v <;> simp_all [asObjE]

theorem contains_iff_mem {α : Type} [BEq α] [LawfulBEq α] {l : List α} {a : α} :
    l.contains a = true ↔ a ∈ l := by
  simp [List.contains, List.elem_eq_mem]

theorem mapM_ok_length {α β : Type} {f : α → Except String β} :
    ∀ {l : List α} {l' : List β}, l.mapM f = Except.ok l' → l'.length = l.length := by
  intro l
  induction l with
  | nil =>
    intro l' h
    simp only [List.mapM_nil, pure, Except.pure] at h
    cases h; rfl
  | cons a t ih =>
    intro l' h
    rw [List.mapM_cons] at h
    obtain ⟨b, _, h2⟩ := exbind_ok h
    obtain ⟨bs, hbs, h3⟩ := exbind_ok h2
    simp only [pure, Except.pure] at h3
    cases h3
    simp [ih hbs]

theorem mapM_asObjE_shape :
    ∀ {l : List JVal} {l' : List Dict}, l.mapM asObjE = Except.ok l' →
    l = l'.map JVal.obj := by
  intro l
  induction l with
  | nil =>
    intro l' h
    simp only [List.mapM_nil, pure, Except.pure] at h
    cases h; rfl
  | cons a t ih =>
    intro l' h
    rw [List.mapM_cons] at h
    obtain ⟨b, hb, h2⟩ := exbind_ok h
    obtain ⟨bs, hbs, h3⟩ := exbind_ok h2
    simp only [pure, Except.pure] at h3
    cases h3
    simp [asObjE_ok hb, ih hbs]

theorem mapM_of_ok_ptwise {α β : Type} {f : α → Except String β} {g : α → β} :
    ∀ {l : List α}, (∀ a ∈ l, f a = Except.ok (g a)) →
    l.mapM f = Except.ok (l.map g) := by
  intro l
  induction l with
  | nil => intro _; simp [List.mapM_nil]; rfl
  | cons a t ih =>
    intro h
    rw [List.mapM_cons, h a (by simp), ih (fun x hx => h x (by simp [hx]))]
    rfl

theorem mapM_bindK_ok {α β γ : Type} {K : Except String γ} {g : γ → α → β} :
    ∀ {l : List α} {l2 : List β},
    l.mapM (fun e => do
      let kvs ← K
      Except.ok (g kvs e)) = Except.ok l2 →
    (l = [] ∧ l2 = []) ∨ ∃ kvs, K = Except.ok kvs ∧ l2 = l.map (g kvs) := by
  intro l
  induction l with
  | nil =>
    intro l2 h
    simp only [List.mapM_nil, pure, Except.pure] at h
    cases h
    exact Or.inl ⟨rfl, rfl⟩
  | cons a t ih =>
    intro l2 h
    rw [List.mapM_cons] at h
    obtain ⟨b, hb, h2⟩ := exbind_ok h
    obtain ⟨bs, hbs, h3⟩ := exbind_ok h2
    simp only [pure, Except.pure] at h3
    cases h3
    obtain ⟨kvs, hk, hgb⟩ := exbind_ok hb
    simp only [Except.ok.injEq] at hgb
    refine Or.inr ⟨kvs, hk, ?_⟩
    rcases ih hbs with ⟨ht, hbs2⟩ | ⟨kvs', hk', hmap⟩
    · subst ht
      subst hbs2
      simp [hgb]
    · rw [hk'] at hk
      cases hk
      simp [hgb, hmap]

theorem nineKVs_ok {md : Dict} {kvs : List (String × JVal)}
    (h : nineKVs md = Except.ok kvs) :
    kvs = nineKeys.map (fun k => (k, (List.lookup k md).getD JVal.null)) ∧
    ∀ k ∈ nineKeys, (List.lookup k md).isSome = true := by
  suffices H : ∀ (ks : List String) (kvs : List (String × JVal)),
      ks.mapM (fun k => do
        let v ← req (List.lookup k md) ("KeyError: " ++ k)
        Except.ok (k, v)) = Except.ok kvs →
      kvs = ks.map (fun k => (k, (List.lookup k md).getD JVal.null)) ∧
      ∀ k ∈ ks, (List.lookup k md).isSome = true by
    exact H nineKeys kvs h
  intro ks
  induction ks with
  | nil =>
    intro kvs h
    simp only [List.mapM_nil, pure, Except.pure] at h
    cases h
    exact ⟨rfl, by simp⟩
  | cons a t ih =>
    intro kvs h
    rw [List.mapM_cons] at h
    obtain ⟨b, hb, h2⟩ := exbind_ok h
    obtain ⟨bs, hbs, h3⟩ := exbind_ok h2
    simp only [pure, Except.pure] at h3
    cases h3
    obtain ⟨v, hv, hbv⟩ := exbind_ok hb
    simp only [Except.ok.injEq] at hbv
    have hlk := req_ok hv
    obtain ⟨ht1, ht2⟩ := ih bs hbs
    refine ⟨?_, ?_⟩
    · simp [← hbv, hlk, ht1]
    · intro k hk
      rcases List.mem_cons.mp hk with rfl | hk2
      · simp [hlk]
      · exact ht2 k hk2

/-! ### Dict lemmas -/

theorem lookup_cons_self {v : JVal} {k : String} {t : Dict} :
    List.lookup k ((k, v) :: t) = some v := by
  simp [List.lookup]

theorem lookup_cons_ne {pk k : String} {pv : JVal} {t : Dict} (h : k ≠ pk) :
    List.lookup k ((pk, pv) :: t) = List.lookup k t := by
  have : (k == pk) = false := by
    simpa using h
  simp [List.lookup, this]

theorem lookup_dictSet_self (d : Dict) (k : String) (v : JVal) :
    List.lookup k (dictSet d k v) = some v := by
  induction d with
  | nil => simp [dictSet, List.lookup]
  | cons p t ih =>
    obtain ⟨pk, pv⟩ := p
    by_cases hp : pk = k
    · subst hp
      simp [dictSet, lookup_cons_self]
    · rw [dictSet]
      simp only [hp, if_false]
      rw [lookup_cons_ne (fun h => hp h.symm), ih]

theorem lookup_dictSet_ne (d : Dict) {k k' : String} (v : JVal) (h : k' ≠ k) :
    List.lookup k' (dictSet d k v) = List.lookup k' d := by
  induction d with
  | nil =>
    rw [show dictSet [] k v = [(k, v)] from rfl, lookup_cons_ne h]
  | cons p t ih =>
    obtain ⟨pk, pv⟩ := p
    by_cases hp : pk = k
    · have hstep : dictSet ((pk, pv) :: t) k v = (k, v) :: t := by
        simp [dictSet, hp]
      rw [hstep, lookup_cons_ne h, lookup_cons_ne (fun he => h (he.trans hp))]
    · have hstep : dictSet ((pk, pv) :: t) k v = (pk, pv) :: dictSet t k v := by
        simp [dictSet, hp]
      rw [hstep]
      by_cases hk' : k' = pk
      · subst hk'
        rw [lookup_cons_self, lookup_cons_self]
      · rw [lookup_cons_ne hk', lookup_cons_ne hk', ih]

theorem dictSet_dictSet_self (d : Dict) (k : String) (v : JVal) :
    dictSet (dictSet d k v) k v = dictSet d k v := by
  induction d with
  | nil => simp [dictSet]
  | cons p t ih =>
    obtain ⟨pk, pv⟩ := p
    by_cases hp : pk = k
    · simp [dictSet, hp]
    · simp [dictSet, hp, ih]

theorem eraseK_cons (pk k : String) (pv : JVal) (t : Dict) :
    eraseK ((pk, pv) :: t) k =
    if pk = k then eraseK t k else (pk, pv) :: eraseK t k := by
  by_cases h : pk = k <;> simp [eraseK, List.filter_cons, bne_iff_ne, h]

theorem eraseK_dictSet (d : Dict) (k : String) (v : JVal) :
    eraseK (dictSet d k v) k = eraseK d k := by
  induction d with
  | nil =>
    rw [show dictSet [] k v = [(k, v)] from rfl, eraseK_cons]
    simp
  | cons p t ih =>
    obtain ⟨pk, pv⟩ := p
    by_cases hp : pk = k
    · have hstep : dictSet ((pk, pv) :: t) k v = (k, v) :: t := by simp [dictSet, hp]
      rw [hstep, eraseK_cons, eraseK_cons]
      simp [hp]
    · have hstep : dictSet ((pk, pv) :: t) k v = (pk, pv) :: dictSet t k v := by
        simp [dictSet, hp]
      rw [hstep, eraseK_cons, eraseK_cons, ih]

theorem lookup_foldl_dictSet_ne {k : String} :
    ∀ (kvs : List (String × JVal)) (e : Dict), (∀ p ∈ kvs, p.1 ≠ k) →
    List.lookup k (kvs.foldl (fun d p => dictSet d p.1 p.2) e) = List.lookup k e := by
  intro kvs
  induction kvs with
  | nil => intro e _; rfl
  | cons p t ih =>
    intro e h
    simp only [List.foldl_cons]
    rw [ih _ (fun q hq => h q (List.mem_cons_of_mem _ hq))]
    exact lookup_dictSet_ne e p.2 (fun he => h p (List.mem_cons_self _ _) he.symm)

theorem lookup_foldl_dictSet_mem {k : String} {v : JVal} :
    ∀ (kvs : List (String × JVal)) (e : Dict), (kvs.map Prod.fst).Nodup →
    (k, v) ∈ kvs →
    List.lookup k (kvs.foldl (fun d p => dictSet d p.1 p.2) e) = some v := by
  intro kvs
  induction kvs with
  | nil => intro e _ hmem; cases hmem
  | cons p t ih =>
    intro e hnd hmem
    simp only [List.map_cons, List.nodup_cons] at hnd
    simp only [List.foldl_cons]
    rcases List.mem_cons.mp hmem with heq | hmem2
    · have hp : p = (k, v) := heq.symm
      subst hp
      rw [lookup_foldl_dictSet_ne t _ (fun q hq hqk =>
        hnd.1 (List.mem_map.mpr ⟨q, hq, hqk⟩))]
      exact lookup_dictSet_self e k v
    · exact ih _ hnd.2 hmem2

/-! ### DataFrame lemmas -/

theorem contains_false_iff {α : Type} [BEq α] [LawfulBEq α] {l : List α} {a : α} :
    l.contains a = false ↔ a ∉ l := by
  constructor
  · intro h hm
    rw [contains_iff_mem.mpr hm] at h
    cases h
  · intro h
    by_cases hb : l.contains a = true
    · exact absurd (contains_iff_mem.mp hb) h
    · simpa using hb

theorem zipUpd_map_ne {c c' : String} (hne : c' ≠ c) :
    ∀ (rows : List (String → JVal)) (vs : List JVal), vs.length = rows.length →
    (List.zipWith (fun r v => fun c0 => if c0 = c then v else r c0) rows vs).map
      (fun r => r c') = rows.map (fun r => r c') := by
  intro rows
  induction rows with
  | nil => intro vs _; simp
  | cons r t ih =>
    intro vs hl
    cases vs with
    | nil => simp at hl
    | cons v vt =>
      simp only [List.zipWith_cons_cons, List.map_cons]
      rw [ih vt (by simpa using hl)]
      simp [hne]

theorem zipUpd_map_self {c : String} :
    ∀ (rows : List (String → JVal)) (vs : List JVal), vs.length = rows.length →
    (List.zipWith (fun r v => fun c0 => if c0 = c then v else r c0) rows vs).map
      (fun r => r c) = vs := by
  intro rows
  induction rows with
  | nil =>
    intro vs h
    have hv : vs = [] := List.length_eq_zero.mp (by simpa using h)
    subst hv
    simp
  | cons r t ih =>
    intro vs hl
    cases vs with
    | nil => simp at hl
    | cons v vt =>
      simp only [List.zipWith_cons_cons, List.map_cons]
      rw [ih vt (by simpa using hl)]
      simp

theorem zipUpd_length {c : String} {rows : List (String → JVal)} {vs : List JVal}
    (h : vs.length = rows.length) :
    (List.zipWith (fun r v => fun c0 => if c0 = c then v else r c0) rows vs).length =
    rows.length := by
  simp [List.length_zipWith, h]

theorem contains_append_singleton {l : List String} {a b : String} :
    (l ++ [b]).contains a = true ↔ (l.contains a = true ∨ a = b) := by
  simp [List.contains, List.elem_eq_mem, List.mem_append]

theorem getCol_contains {df : DF} {c : String} {l : List JVal}
    (h : getCol df c = some l) : df.cols.contains c = true := by
  by_cases hc : df.cols.contains c = true
  · exact hc
  · unfold getCol at h
    rw [if_neg hc] at h
    cases h

theorem getCol_eq_map {df : DF} {c : String} {l : List JVal}
    (h : getCol df c = some l) : l = df.rows.map (fun r => r c) := by
  have hc := getCol_contains h
  unfold getCol at h
  rw [if_pos hc] at h
  exact (Option.some.inj h).symm

theorem getCol_length {df : DF} {c : String} {l : List JVal}
    (h : getCol df c = some l) : l.length = df.rows.length := by
  rw [getCol_eq_map h]
  simp

theorem getCol_of_contains {df : DF} {c : String}
    (h : df.cols.contains c = true) :
    getCol df c = some (df.rows.map (fun r => r c)) := by
  unfold getCol
  rw [if_pos h]

theorem getCol_none_of_not_contains {df : DF} {c : String}
    (h : df.cols.contains c = false) : getCol df c = none := by
  unfold getCol
  rw [if_neg (fun hx => Bool.false_ne_true (h ▸ hx))]

theorem setCol_cols_eq {df : DF} {c : String} {vs : List JVal} :
    (setCol df c vs).cols =
    if df.cols.contains c then df.cols else df.cols ++ [c] := rfl

theorem setCol_rows_eq {df : DF} {c : String} {vs : List JVal} :
    (setCol df c vs).rows =
    List.zipWith (fun r v => fun c0 => if c0 = c then v else r c0) df.rows vs := rfl

theorem setCol_rows_length {df : DF} {c : String} {vs : List JVal}
    (h : vs.length = df.rows.length) :
    (setCol df c vs).rows.length = df.rows.length := by
  rw [setCol_rows_eq]
  exact zipUpd_length h

theorem setCol_contains_mono {df : DF} {c c' : String} {vs : List JVal}
    (h : df.cols.contains c' = true) :
    (setCol df c vs).cols.contains c' = true := by
  rw [setCol_cols_eq]
  by_cases hc : df.cols.contains c = true
  · rw [if_pos hc]
    exact h
  · rw [if_neg hc]
    exact contains_append_singleton.mpr (Or.inl h)

theorem setCol_contains_self {df : DF} {c : String} {vs : List JVal} :
    (setCol df c vs).cols.contains c = true := by
  rw [setCol_cols_eq]
  by_cases hc : df.cols.contains c = true
  · rw [if_pos hc]
    exact hc
  · rw [if_neg hc]
    exact contains_append_singleton.mpr (Or.inr rfl)

theorem getCol_setCol_self {df : DF} {c : String} {vs : List JVal}
    (h : vs.length = df.rows.length) :
    getCol (setCol df c vs) c = some vs := by
  rw [getCol_of_contains setCol_contains_self, setCol_rows_eq,
      zipUpd_map_self _ _ h]

theorem getCol_setCol_ne {df : DF} {c c' : String} {vs : List JVal}
    (h : vs.length = df.rows.length) (hne : c' ≠ c) :
    getCol (setCol df c vs) c' = getCol df c' := by
  by_cases hc' : df.cols.contains c' = true
  · rw [getCol_of_contains (setCol_contains_mono hc'), getCol_of_contains hc',
        setCol_rows_eq, zipUpd_map_ne hne _ _ h]
  · have hc1 : df.cols.contains c' = false := by simpa using hc'
    have hc2 : (setCol df c vs).cols.contains c' = false := by
      rw [setCol_cols_eq]
      by_cases hc : df.cols.contains c = true
      · rw [if_pos hc]
        exact hc1
      · rw [if_neg hc]
        by_cases hx : (df.cols ++ [c]).contains c' = true
        · rcases contains_append_singleton.mp hx with h1 | h2
          · exact absurd h1 hc'
          · exact absurd h2 hne
        · simpa using hx
    rw [getCol_none_of_not_contains hc2, getCol_none_of_not_contains hc1]

theorem preserves_setCol {df : DF} {c : String} {vs : List JVal}
    (h : vs.length = df.rows.length) : Preserves df (setCol df c vs) [c] := by
  refine ⟨setCol_rows_length h, fun c' hc' => setCol_contains_mono hc',
    fun c' hc' => ?_⟩
  have hne : c' ≠ c := by
    intro he
    subst he
    simp [List.contains_cons] at hc'
  exact getCol_setCol_ne h hne

theorem preserves_trans {df1 df2 df3 : DF} {t1 t2 : List String}
    (h1 : Preserves df1 df2 t1) (h2 : Preserves df2 df3 t2) :
    Preserves df1 df3 (t1 ++ t2) := by
  refine ⟨h2.1.trans h1.1, fun c hc => h2.2.1 c (h1.2.1 c hc), fun c hc => ?_⟩
  have hall : c ∉ t1 ++ t2 := contains_false_iff.mp hc
  have hm1 : c ∉ t1 := fun hx => hall (List.mem_append.mpr (Or.inl hx))
  have hm2 : c ∉ t2 := fun hx => hall (List.mem_append.mpr (Or.inr hx))
  rw [h2.2.2 c (contains_false_iff.mpr hm2), h1.2.2 c (contains_false_iff.mpr hm1)]

theorem getCol_mk {cols : List String} {rows : List (String → JVal)} {c : String} :
    getCol ⟨cols, rows⟩ c =
    if cols.contains c then some (rows.map (fun r => r c)) else none := rfl

theorem insertColAt_ok {df : DF} {pos : Nat} {c : String} {vs : List JVal} {df' : DF}
    (h : insertColAt df pos c vs = Except.ok df') :
    df.cols.contains c = false ∧
    df'.cols = df.cols.take pos ++ c :: df.cols.drop pos ∧
    df'.rows = List.zipWith (fun r v => fun c0 => if c0 = c then v else r c0)
      df.rows vs := by
  unfold insertColAt at h
  by_cases hc : df.cols.contains c = true
  · rw [if_pos hc] at h
    cases h
  · rw [if_neg hc] at h
    have h2 := Except.ok.inj h
    subst h2
    exact ⟨by simpa using hc, rfl, rfl⟩

theorem contains_insert_cols {l : List String} {pos : Nat} {c c' : String} :
    (l.take pos ++ c :: l.drop pos).contains c' = true ↔
    (c' = c ∨ l.contains c' = true) := by
  rw [contains_iff_mem, List.mem_append, List.mem_cons]
  constructor
  · rintro (h1 | h2 | h3)
    · exact Or.inr (contains_iff_mem.mpr (List.take_subset pos l h1))
    · exact Or.inl h2
    · exact Or.inr (contains_iff_mem.mpr (List.drop_subset pos l h3))
  · rintro (h1 | h2)
    · exact Or.inr (Or.inl h1)
    · have hm : c' ∈ l := contains_iff_mem.mp h2
      rw [← List.take_append_drop pos l] at hm
      rcases List.mem_append.mp hm with h | h
      · exact Or.inl h
      · exact Or.inr (Or.inr h)

theorem preserves_insertColAt {df : DF} {pos : Nat} {c : String} {vs : List JVal}
    {df' : DF} (hlen : vs.length = df.rows.length)
    (h : insertColAt df pos c vs = Except.ok df') :
    Preserves df df' [c] := by
  obtain ⟨hnc, hcols, hrows⟩ := insertColAt_ok h
  refine ⟨?_, ?_, ?_⟩
  · rw [hrows]
    exact zipUpd_length hlen
  · intro c2 hc2
    rw [hcols]
    exact contains_insert_cols.mpr (Or.inr hc2)
  · intro c2 hc2
    have hne : c2 ≠ c := by
      intro he
      subst he
      simp [List.contains_cons] at hc2
    by_cases hcc : df.cols.contains c2 = true
    · have hc2' : df'.cols.contains c2 = true := by
        rw [hcols]
        exact contains_insert_cols.mpr (Or.inr hcc)
      rw [getCol_of_contains hc2', getCol_of_contains hcc, hrows,
          zipUpd_map_ne hne _ _ hlen]
    · have h1 : df.cols.contains c2 = false := by simpa using hcc
      have h2 : df'.cols.contains c2 = false := by
        rw [hcols]
        by_cases hx : (df.cols.take pos ++ c :: df.cols.drop pos).contains c2 = true
        · rcases contains_insert_cols.mp hx with he | hcl
          · exact absurd he hne
          · exact absurd hcl hcc
        · simpa using hx
      rw [getCol_none_of_not_contains h2, getCol_none_of_not_contains h1]

theorem appendCol_cols_eq {df : DF} {c : String} {vs : List JVal} :
    (appendCol df c vs).cols = df.cols ++ [c] := by
  unfold appendCol
  by_cases hc : df.cols.contains c = true
  · rw [if_pos hc]
  · rw [if_neg hc]

theorem appendCol_rows_length {df : DF} {c : String} {vs : List JVal}
    (h : vs.length = df.rows.length) :
    (appendCol df c vs).rows.length = df.rows.length := by
  unfold appendCol
  by_cases hc : df.cols.contains c = true
  · rw [if_pos hc]
  · rw [if_neg hc]
    exact zipUpd_length h

theorem getCol_appendCol {df : DF} {c c' : String} {vs : List JVal}
    (h : vs.length = df.rows.length)
    (hor : df.cols.contains c' = true ∨ c' ≠ c) :
    getCol (appendCol df c vs) c' = getCol df c' := by
  unfold appendCol
  by_cases hc : df.cols.contains c = true
  · rw [if_pos hc]
    by_cases hc' : df.cols.contains c' = true
    · rw [show ({ df with cols := df.cols ++ [c] } : DF) =
          ⟨df.cols ++ [c], df.rows⟩ from rfl, getCol_mk,
        if_pos (contains_append_singleton.mpr (Or.inl hc')),
        getCol_of_contains hc']
    · have hne : c' ≠ c := by
        rcases hor with h1 | hne
        · exact absurd h1 hc'
        · exact hne
      have h1 : df.cols.contains c' = false := by simpa using hc'
      have h2 : (df.cols ++ [c]).contains c' = false := by
        by_cases hx : (df.cols ++ [c]).contains c' = true
        · rcases contains_append_singleton.mp hx with ha | hb
          · exact absurd ha hc'
          · exact absurd hb hne
        · simpa using hx
      rw [show ({ df with cols := df.cols ++ [c] } : DF) =
          ⟨df.cols ++ [c], df.rows⟩ from rfl, getCol_mk,
        if_neg (fun hx => Bool.false_ne_true (h2 ▸ hx)),
        getCol_none_of_not_contains h1]
  · rw [if_neg hc]
    have hne : c' ≠ c := by
      rcases hor with h1 | hne
      · intro he
        subst he
        rw [h1] at hc
        exact hc rfl
      · exact hne
    by_cases hc' : df.cols.contains c' = true
    · rw [getCol_mk, if_pos (contains_append_singleton.mpr (Or.inl hc')),
        getCol_of_contains hc', zipUpd_map_ne hne _ _ h]
    · have h1 : df.cols.contains c' = false := by simpa using hc'
      have h2 : (df.cols ++ [c]).contains c' = false := by
        by_cases hx : (df.cols ++ [c]).contains c' = true
        · rcases contains_append_singleton.mp hx with ha | hb
          · exact absurd ha hc'
          · exact absurd hb hne
        · simpa using hx
      rw [getCol_mk, if_neg (fun hx => Bool.false_ne_true (h2 ▸ hx)),
        getCol_none_of_not_contains h1]

theorem concat_cols_eq :
    ∀ (n : List (String × List JVal)) (df : DF),
    (concatCols df n).cols = df.cols ++ n.map Prod.fst := by
  intro n
  induction n with
  | nil =>
    intro df
    simp [concatCols]
  | cons p t ih =>
    intro df
    simp only [concatCols, List.foldl_cons] at ih ⊢
    rw [ih (appendCol df p.1 p.2), appendCol_cols_eq]
    simp

theorem concat_preserves :
    ∀ (n : List (String × List JVal)) (df : DF),
    (∀ p ∈ n, p.2.length = df.rows.length) →
    (concatCols df n).rows.length = df.rows.length ∧
    (∀ c, df.cols.contains c = true → (concatCols df n).cols.contains c = true) ∧
    (∀ c, df.cols.contains c = true ∨ (n.map Prod.fst).contains c = false →
      getCol (concatCols df n) c = getCol df c) := by
  intro n
  induction n with
  | nil =>
    intro df _
    exact ⟨rfl, fun c h => h, fun c _ => rfl⟩
  | cons p t ih =>
    intro df hlen
    simp only [concatCols, List.foldl_cons] at ih ⊢
    have hl1 : p.2.length = df.rows.length := hlen p (List.mem_cons_self _ _)
    have hrows1 : (appendCol df p.1 p.2).rows.length = df.rows.length :=
      appendCol_rows_length hl1
    obtain ⟨ihl, ihc, ihg⟩ := ih (appendCol df p.1 p.2)
      (fun q hq => by rw [hrows1]; exact hlen q (List.mem_cons_of_mem _ hq))
    refine ⟨ihl.trans hrows1, ?_, ?_⟩
    · intro c hc
      apply ihc
      rw [appendCol_cols_eq]
      exact contains_append_singleton.mpr (Or.inl hc)
    · intro c hor
      rcases hor with hc | hfree
      · rw [ihg c (Or.inl (by
          rw [appendCol_cols_eq]
          exact contains_append_singleton.mpr (Or.inl hc)))]
        exact getCol_appendCol hl1 (Or.inl hc)
      · have hmem : c ∉ p.1 :: t.map Prod.fst :=
          contains_false_iff.mp (by simpa using hfree)
        have hne : c ≠ p.1 := fun he => hmem (by simp [he])
        have ht : (t.map Prod.fst).contains c = false :=
          contains_false_iff.mpr (fun hx => hmem (List.mem_cons_of_mem _ hx))
        rw [ihg c (Or.inr ht)]
        exact getCol_appendCol hl1 (Or.inr hne)

theorem pdDF_rows_length {es : List Dict} : (pdDF es).rows.length = es.length := by
  simp [pdDF]

theorem getCol_pdDF_of_contains {es : List Dict} {c : String}
    (h : (unionKeys es).contains c = true) :
    getCol (pdDF es) c =
    some (es.map (fun e => (List.lookup c e).getD JVal.null)) := by
  rw [getCol_of_contains (show (pdDF es).cols.contains c = true from h)]
  rw [show (pdDF es).rows =
      es.map (fun e => fun c0 => (List.lookup c0 e).getD JVal.null) from rfl,
    List.map_map]
  rfl

theorem lookup_isSome_key {e : Dict} {k : String}
    (h : (List.lookup k e).isSome = true) : k ∈ e.map Prod.fst := by
  induction e with
  | nil => simp [List.lookup] at h
  | cons p t ih =>
    obtain ⟨pk, pv⟩ := p
    by_cases hk : k = pk
    · simp [hk]
    · rw [lookup_cons_ne hk] at h
      simp [ih h]

theorem lookup_none_of_key_not_mem {e : Dict} {k : String}
    (h : k ∉ e.map Prod.fst) : List.lookup k e = none := by
  cases hl : List.lookup k e with
  | none => rfl
  | some v =>
    exact absurd (lookup_isSome_key (by simp [hl])) h

theorem innerKeys_mono {k : String} :
    ∀ (e : Dict) (acc : List String), acc.contains k = true →
    (e.foldl (fun acc2 p => if acc2.contains p.1 then acc2 else acc2 ++ [p.1])
      acc).contains k = true := by
  intro e
  induction e with
  | nil => intro acc h; exact h
  | cons p t ih =>
    intro acc h
    simp only [List.foldl_cons]
    apply ih
    by_cases hc : acc.contains p.1 = true
    · rw [if_pos hc]
      exact h
    · rw [if_neg hc]
      exact contains_append_singleton.mpr (Or.inl h)

theorem innerKeys_adds {k : String} :
    ∀ (e : Dict) (acc : List String), k ∈ e.map Prod.fst →
    (e.foldl (fun acc2 p => if acc2.contains p.1 then acc2 else acc2 ++ [p.1])
      acc).contains k = true := by
  intro e
  induction e with
  | nil =>
    intro acc h
    simp at h
  | cons p t ih =>
    intro acc h
    simp only [List.map_cons, List.mem_cons] at h
    simp only [List.foldl_cons]
    rcases h with heq | h2
    · apply innerKeys_mono
      subst heq
      by_cases hc : acc.contains p.1 = true
      · rw [if_pos hc]
        exact hc
      · rw [if_neg hc]
        exact contains_append_singleton.mpr (Or.inr rfl)
    · exact ih _ h2

theorem innerKeys_sub {k : String} :
    ∀ (e : Dict) (acc : List String),
    (e.foldl (fun acc2 p => if acc2.contains p.1 then acc2 else acc2 ++ [p.1])
      acc).contains k = true →
    acc.contains k = true ∨ k ∈ e.map Prod.fst := by
  intro e
  induction e with
  | nil =>
    intro acc h
    exact Or.inl h
  | cons p t ih =>
    intro acc h
    simp only [List.foldl_cons] at h
    rcases ih _ h with hacc | hmem
    · by_cases hc : acc.contains p.1 = true
      · rw [if_pos hc] at hacc
        exact Or.inl hacc
      · rw [if_neg hc] at hacc
        rcases contains_append_singleton.mp hacc with h1 | h2
        · exact Or.inl h1
        · exact Or.inr (by simp [h2])
    · exact Or.inr (by simp [hmem])

theorem outerKeys_mono {k : String} :
    ∀ (l : List Dict) (acc : List String), acc.contains k = true →
    (l.foldl (fun acc e =>
      e.foldl (fun acc2 p => if acc2.contains p.1 then acc2 else acc2 ++ [p.1])
        acc) acc).contains k = true := by
  intro l
  induction l with
  | nil => intro acc h; exact h
  | cons d t ih =>
    intro acc h
    simp only [List.foldl_cons]
    exact ih _ (innerKeys_mono d acc h)

theorem unionKeys_contains_of {es : List Dict} {e : Dict} {k : String}
    (he : e ∈ es) (hk : k ∈ e.map Prod.fst) :
    (unionKeys es).contains k = true := by
  suffices H : ∀ (l : List Dict) (acc : List String), e ∈ l →
      (l.foldl (fun acc e =>
        e.foldl (fun acc2 p => if acc2.contains p.1 then acc2 else acc2 ++ [p.1])
          acc) acc).contains k = true by
    exact H es [] he
  intro l
  induction l with
  | nil =>
    intro acc h
    cases h
  | cons d t ih =>
    intro acc h
    simp only [List.foldl_cons]
    rcases List.mem_cons.mp h with heq | h2
    · subst heq
      exact outerKeys_mono t _ (innerKeys_adds e acc hk)
    · exact ih _ h2

theorem unionKeys_contains_to {es : List Dict} {k : String}
    (h : (unionKeys es).contains k = true) :
    ∃ e ∈ es, k ∈ e.map Prod.fst := by
  suffices H : ∀ (l : List Dict) (acc : List String),
      (l.foldl (fun acc e =>
        e.foldl (fun acc2 p => if acc2.contains p.1 then acc2 else acc2 ++ [p.1])
          acc) acc).contains k = true →
      acc.contains k = true ∨ ∃ e ∈ l, k ∈ e.map Prod.fst by
    rcases H es [] h with hacc | hex
    · simp [List.contains] at hacc
    · exact hex
  intro l
  induction l with
  | nil =>
    intro acc h2
    exact Or.inl h2
  | cons d t ih =>
    intro acc h2
    simp only [List.foldl_cons] at h2
    rcases ih _ h2 with hstep | hex
    · rcases innerKeys_sub d acc hstep with hacc | hmem
      · exact Or.inl hacc
      · exact Or.inr ⟨d, List.mem_cons_self _ _, hmem⟩
    · obtain ⟨e, hel, hke⟩ := hex
      exact Or.inr ⟨e, List.mem_cons_of_mem _ hel, hke⟩

theorem unionKeys_not_contains {es : List Dict} {k : String}
    (h : (unionKeys es).contains k = false) :
    ∀ e ∈ es, List.lookup k e = none := by
  intro e he
  by_cases hl : (List.lookup k e).isSome = true
  · have := unionKeys_contains_of he (lookup_isSome_key hl)
    rw [this] at h
    cases h
  · cases hx : List.lookup k e with
    | none => rfl
    | some v =>
      rw [hx] at hl
      simp at hl

/-! ### `extract_events` step lemmas -/

theorem normalizeDN_ok {df : DF} {c : String} {df' : DF}
    (h : normalizeDN df c = Except.ok df') :
    ∃ vals fss, getCol df c = some vals ∧
      vals.mapM asObjE = Except.ok fss ∧
      ((fss.map (fun fs => scalarLookup fs "displayName")).all Option.isNone) = false ∧
      df' = setCol df c ((fss.map (fun fs => scalarLookup fs "displayName")).map
        (fun o => o.getD JVal.null)) := by
  unfold normalizeDN at h
  obtain ⟨vals, hv, h2⟩ := exbind_ok h
  obtain ⟨fss, hf, h3⟩ := exbind_ok h2
  dsimp only at h3
  by_cases hall : ((fss.map (fun fs => scalarLookup fs "displayName")).all
      Option.isNone) = true
  · rw [if_pos hall] at h3
    cases h3
  · rw [if_neg hall] at h3
    have h4 := Except.ok.inj h3
    exact ⟨vals, fss, req_ok hv, hf, by simpa using hall, h4.symm⟩

theorem normalizeDN_preserves {df : DF} {c : String} {df' : DF}
    (h : normalizeDN df c = Except.ok df') : Preserves df df' [c] := by
  obtain ⟨vals, fss, hv, hf, _, hdf⟩ := normalizeDN_ok h
  subst hdf
  apply preserves_setCol
  simp only [List.length_map]
  rw [mapM_ok_length hf]
  exact getCol_length hv

theorem cleanCardType_ok {df df' : DF} (h : cleanCardType df = Except.ok df') :
    (getCol df "cardType" = none ∧
      df' = setCol df "cardType" (List.replicate df.rows.length (JVal.bool false))) ∨
    ∃ vals fss, getCol df "cardType" = some vals ∧
      (vals.map (fun v => match v with
        | JVal.null => JVal.obj []
        | v => v)).mapM asObjE = Except.ok fss ∧
      (((fss.map (fun fs => scalarLookup fs "displayName")).all Option.isNone = true ∧
        df' = setCol df "cardType" (List.replicate df.rows.length (JVal.bool false))) ∨
       ((fss.map (fun fs => scalarLookup fs "displayName")).all Option.isNone = false ∧
        df' = setCol df "cardType" ((fss.map (fun fs => scalarLookup fs "displayName")).map
          (fun o => match o with
            | some JVal.null => JVal.bool false
            | some v => v
            | none => JVal.bool false)))) := by
  unfold cleanCardType at h
  cases hg : getCol df "cardType" with
  | none =>
    rw [hg] at h
    exact Or.inl ⟨rfl, (Except.ok.inj h).symm⟩
  | some vals =>
    rw [hg] at h
    obtain ⟨fss, hf, h3⟩ := exbind_ok h
    dsimp only at h3
    refine Or.inr ⟨vals, fss, rfl, hf, ?_⟩
    by_cases hall : ((fss.map (fun fs => scalarLookup fs "displayName")).all
        Option.isNone) = true
    · rw [if_pos hall] at h3
      exact Or.inl ⟨hall, (Except.ok.inj h3).symm⟩
    · rw [if_neg hall] at h3
      exact Or.inr ⟨by simpa using hall, (Except.ok.inj h3).symm⟩

theorem cleanCardType_preserves {df df' : DF}
    (h : cleanCardType df = Except.ok df') : Preserves df df' ["cardType"] := by
  rcases cleanCardType_ok h with ⟨_, hdf⟩ | ⟨vals, fss, hg, hm, hc⟩
  · subst hdf
    apply preserves_setCol
    simp
  · have hlen : fss.length = df.rows.length := by
      have h1 := mapM_ok_length hm
      simp only [List.length_map] at h1
      rw [h1]
      exact getCol_length hg
    rcases hc with ⟨_, hdf⟩ | ⟨_, hdf⟩
    · subst hdf
      apply preserves_setCol
      simp
    · subst hdf
      apply preserves_setCol
      simp [hlen]

theorem cleanSats_preserves {df : DF} {et : Dict} {df' : DF}
    (h : cleanSats df et = Except.ok df') :
    Preserves df df' ["satisfiedEventsTypes"] := by
  unfold cleanSats at h
  obtain ⟨vals, hv, h2⟩ := exbind_ok h
  dsimp only at h2
  obtain ⟨newVals, hn, h3⟩ := exbind_ok h2
  have h4 := Except.ok.inj h3
  subst h4
  apply preserves_setCol
  rw [mapM_ok_length hn]
  exact getCol_length (req_ok hv)

theorem cleanQualRows_length :
    ∀ (vals acc out : List JVal), cleanQualRows vals acc = Except.ok out →
    out.length = acc.length + vals.length := by
  intro vals
  induction vals with
  | nil =>
    intro acc out h
    unfold cleanQualRows at h
    have h2 := Except.ok.inj h
    subst h2
    simp
  | cons v rest ih =>
    intro acc out h
    unfold cleanQualRows at h
    cases hcell : cleanQualCell v with
    | done c =>
      rw [hcell] at h
      have := ih (c :: acc) out h
      simp at this
      simp [this]
      omega
    | aborted c =>
      rw [hcell] at h
      have h2 := Except.ok.inj h
      subst h2
      simp
    | failed m =>
      rw [hcell] at h
      cases h

theorem cleanQualifiers_preserves {df df' : DF}
    (h : cleanQualifiers df = Except.ok df') : Preserves df df' ["qualifiers"] := by
  unfold cleanQualifiers at h
  obtain ⟨vals, hv, h2⟩ := exbind_ok h
  obtain ⟨newVals, hn, h3⟩ := exbind_ok h2
  have h4 := Except.ok.inj h3
  subst h4
  apply preserves_setCol
  have := cleanQualRows_length vals [] newVals hn
  simp at this
  rw [this]
  exact getCol_length (req_ok hv)

theorem cleanNaBool_preserves (df : DF) (c : String) :
    Preserves df (cleanNaBool df c) [c] := by
  unfold cleanNaBool
  cases hg : getCol df c with
  | some vals =>
    have : vals.length = df.rows.length := getCol_length hg
    apply preserves_setCol
    simpa using this
  | none =>
    apply preserves_setCol
    simp

theorem castPlayerId_preserves {df df' : DF}
    (h : castPlayerId df = Except.ok df') : Preserves df df' ["playerId"] := by
  unfold castPlayerId at h
  obtain ⟨vals, hv, h2⟩ := exbind_ok h
  obtain ⟨newVals, hn, h3⟩ := exbind_ok h2
  have h4 := Except.ok.inj h3
  subst h4
  apply preserves_setCol
  rw [mapM_ok_length hn]
  exact getCol_length (req_ok hv)

theorem addPlayerName_preserves {df : DF} {pid : Dict} {df' : DF}
    (h : addPlayerName df pid = Except.ok df') : Preserves df df' ["playerName"] := by
  unfold addPlayerName at h
  obtain ⟨vals, hv, h2⟩ := exbind_ok h
  dsimp only at h2
  obtain ⟨loc, hloc, h3⟩ := exbind_ok h2
  apply preserves_insertColAt _ h3
  simp only [List.length_map]
  exact getCol_length (req_ok hv)

theorem addHA_preserves {df : DF} {hid aid : JVal} {df' : DF}
    (h : addHA df hid aid = Except.ok df') : Preserves df df' ["h_a"] := by
  unfold addHA at h
  obtain ⟨vals, hv, h2⟩ := exbind_ok h
  dsimp only at h2
  obtain ⟨loc, hloc, h3⟩ := exbind_ok h2
  apply preserves_insertColAt _ h3
  simp only [List.length_map]
  exact getCol_length (req_ok hv)

theorem shotCol_preserves {df : DF} {c : String} {pick : JVal → Option JVal}
    {df' : DF} (h : shotCol df c pick = Except.ok df') : Preserves df df' [c] := by
  unfold shotCol at h
  obtain ⟨vals, hv, h2⟩ := exbind_ok h
  have h3 := Except.ok.inj h2
  subst h3
  apply preserves_setCol
  unfold shotColVals at hv
  obtain ⟨shots, hs, hv2⟩ := exbind_ok hv
  obtain ⟨quals, hq, hv3⟩ := exbind_ok hv2
  rw [mapM_ok_length hv3]
  simp only [List.length_zip]
  rw [getCol_length (req_ok hs), getCol_length (req_ok hq)]
  simp

theorem etCols_mapM_ok {vals : List JVal} :
    ∀ (ks : List String) (out : List (String × List JVal)),
    ks.mapM (fun k => do
      let cells ← vals.mapM (fun v =>
        match v with
        | JVal.arr xs => Except.ok (JVal.bool (xs.any (fun x => JVal.beq x (JVal.str k))))
        | _ => Except.error "TypeError: not iterable")
      Except.ok (k, cells)) = Except.ok out →
    out.map Prod.fst = ks ∧ ∀ p ∈ out, p.2.length = vals.length := by
  intro ks
  induction ks with
  | nil =>
    intro out h
    simp only [List.mapM_nil, pure, Except.pure] at h
    cases h
    exact ⟨rfl, by simp⟩
  | cons a t ih =>
    intro out h
    rw [List.mapM_cons] at h
    obtain ⟨b, hb, h2⟩ := exbind_ok h
    obtain ⟨bs, hbs, h3⟩ := exbind_ok h2
    simp only [pure, Except.pure] at h3
    cases h3
    obtain ⟨cells, hcells, hbv⟩ := exbind_ok hb
    have hbv2 := Except.ok.inj hbv
    obtain ⟨ih1, ih2⟩ := ih bs hbs
    constructor
    · simp [← hbv2, ih1]
    · intro p hp
      rcases List.mem_cons.mp hp with rfl | hp2
      · rw [← hbv2]
        exact mapM_ok_length hcells
      · exact ih2 p hp2

theorem eventTypeCols_ok {df : DF} {et : Dict} {df' : DF}
    (h : eventTypeCols df et = Except.ok df') :
    ∃ vals newCols, getCol df "satisfiedEventsTypes" = some vals ∧
      df' = concatCols df newCols ∧
      newCols.map Prod.fst = et.map Prod.fst ∧
      ∀ p ∈ newCols, p.2.length = df.rows.length := by
  unfold eventTypeCols at h
  obtain ⟨vals, hv, h2⟩ := exbind_ok h
  obtain ⟨newCols, hn, h3⟩ := exbind_ok h2
  have h4 := Except.ok.inj h3
  obtain ⟨hfst, hlen⟩ := etCols_mapM_ok (et.map Prod.fst) newCols hn
  refine ⟨vals, newCols, req_ok hv, h4.symm, hfst, fun p hp => ?_⟩
  rw [hlen p hp]
  exact getCol_length (req_ok hv)

/-- The tail of the pipeline after the `period` column is written. -/
def tailTouched : List String :=
  ["type", "outcomeType", "cardType", "satisfiedEventsTypes", "qualifiers",
   "isShot", "isGoal", "playerId", "playerName", "h_a", "shotBodyType",
   "situation"]

theorem preserves_congr {df df' : DF} {ts ts' : List String}
    (hsub : ∀ c, List.contains ts' c = false → ts.contains c = false)
    (h : Preserves df df' ts) : Preserves df df' ts' :=
  ⟨h.1, h.2.1, fun c hc => h.2.2 c (hsub c hc)⟩

theorem extract_events_ok {md : Dict} {df : DF}
    (h : extract_events md = Except.ok df) :
    ∃ (evList : List JVal) (evs evs2 : List Dict) (df1 df2 df3 df4 : DF)
      (etDict : Dict) (df5 df6 df9 : DF) (pidDict : Dict) (df10 : DF)
      (hid aid : JVal) (df11 df12 df13 : DF),
      List.lookup "events" md = some (JVal.arr evList) ∧
      evList.mapM asObjE = Except.ok evs ∧
      evs.mapM (fun e => do
        let kvs ← nineKVs md
        Except.ok (kvs.foldl (fun d p => dictSet d p.1 p.2) e)) = Except.ok evs2 ∧
      normalizeDN (pdDF evs2) "period" = Except.ok df1 ∧
      normalizeDN df1 "type" = Except.ok df2 ∧
      normalizeDN df2 "outcomeType" = Except.ok df3 ∧
      cleanCardType df3 = Except.ok df4 ∧
      List.lookup "matchCentreEventTypeJson" md = some (JVal.obj etDict) ∧
      cleanSats df4 etDict = Except.ok df5 ∧
      cleanQualifiers df5 = Except.ok df6 ∧
      castPlayerId (cleanNaBool (cleanNaBool df6 "isShot") "isGoal") =
        Except.ok df9 ∧
      List.lookup "playerIdNameDictionary" md = some (JVal.obj pidDict) ∧
      addPlayerName df9 pidDict = Except.ok df10 ∧
      addHA df10 hid aid = Except.ok df11 ∧
      shotCol df11 "shotBodyType" pickBody = Except.ok df12 ∧
      shotCol df12 "situation" pickSituation = Except.ok df13 ∧
      eventTypeCols df13 etDict = Except.ok df := by
  unfold extract_events at h
  obtain ⟨evJ, hevJ, h⟩ := exbind_ok h
  obtain ⟨evList, hevL, h⟩ := exbind_ok h
  have hevJarr : evJ = JVal.arr evList := by
    cases evJ with
    | arr xs => cases hevL; rfl
    | null => cases hevL
    | bool b => cases hevL
    | str s => cases hevL
    | int n => cases hevL
    | obj fs => cases hevL
  obtain ⟨evs, hevs, h⟩ := exbind_ok h
  obtain ⟨evs2, hevs2, h⟩ := exbind_ok h
  try dsimp only at h
  obtain ⟨df1, h1, h⟩ := exbind_ok h
  obtain ⟨df2, h2, h⟩ := exbind_ok h
  obtain ⟨df3, h3, h⟩ := exbind_ok h
  obtain ⟨df4, h4, h⟩ := exbind_ok h
  obtain ⟨etJ, hetJ, h⟩ := exbind_ok h
  obtain ⟨etDict, hetD, h⟩ := exbind_ok h
  obtain ⟨df5, h5, h⟩ := exbind_ok h
  obtain ⟨df6, h6, h⟩ := exbind_ok h
  try dsimp only at h
  obtain ⟨df9, h9, h⟩ := exbind_ok h
  obtain ⟨pidJ, hpidJ, h⟩ := exbind_ok h
  obtain ⟨pidDict, hpidD, h⟩ := exbind_ok h
  obtain ⟨df10, h10, h⟩ := exbind_ok h
  obtain ⟨homeJ, hhomeJ, h⟩ := exbind_ok h
  obtain ⟨homeD, hhomeD, h⟩ := exbind_ok h
  obtain ⟨hid, hhid, h⟩ := exbind_ok h
  obtain ⟨awayJ, hawayJ, h⟩ := exbind_ok h
  obtain ⟨awayD, hawayD, h⟩ := exbind_ok h
  obtain ⟨aid, haid, h⟩ := exbind_ok h
  obtain ⟨df11, h11, h⟩ := exbind_ok h
  obtain ⟨df12, h12, h⟩ := exbind_ok h
  obtain ⟨df13, h13, h⟩ := exbind_ok h
  refine ⟨evList, evs, evs2, df1, df2, df3, df4, etDict, df5, df6, df9,
    pidDict, df10, hid, aid, df11, df12, df13, ?_, hevs, hevs2, h1, h2, h3, h4,
    ?_, h5, h6, h9, ?_, h10, h11, h12, h13, h⟩
  · rw [← hevJarr]
    exact req_ok hevJ
  · rw [← asObjE_ok hetD]
    exact req_ok hetJ
  · rw [← asObjE_ok hpidD]
    exact req_ok hpidJ

/-- Everything after `period` is written preserves all columns outside
`tailTouched` up to the event-type concatenation. -/
theorem tail_preserves {df1 df2 df3 df4 df5 df6 df9 df10 df11 df12 df13 : DF}
    {etDict pidDict : Dict} {hid aid : JVal}
    (h2 : normalizeDN df1 "type" = Except.ok df2)
    (h3 : normalizeDN df2 "outcomeType" = Except.ok df3)
    (h4 : cleanCardType df3 = Except.ok df4)
    (h5 : cleanSats df4 etDict = Except.ok df5)
    (h6 : cleanQualifiers df5 = Except.ok df6)
    (h9 : castPlayerId (cleanNaBool (cleanNaBool df6 "isShot") "isGoal") =
      Except.ok df9)
    (h10 : addPlayerName df9 pidDict = Except.ok df10)
    (h11 : addHA df10 hid aid = Except.ok df11)
    (h12 : shotCol df11 "shotBodyType" pickBody = Except.ok df12)
    (h13 : shotCol df12 "situation" pickSituation = Except.ok df13) :
    Preserves df1 df13 tailTouched := by
  have p2 := normalizeDN_preserves h2
  have p3 := normalizeDN_preserves h3
  have p4 := cleanCardType_preserves h4
  have p5 := cleanSats_preserves h5
  have p6 := cleanQualifiers_preserves h6
  have p7 := cleanNaBool_preserves df6 "isShot"
  have p8 := cleanNaBool_preserves (cleanNaBool df6 "isShot") "isGoal"
  have p9 := castPlayerId_preserves h9
  have p10 := addPlayerName_preserves h10
  have p11 := addHA_preserves h11
  have p12 := shotCol_preserves h12
  have p13 := shotCol_preserves h13
  have hchain := preserves_trans p2 (preserves_trans p3 (preserves_trans p4
    (preserves_trans p5 (preserves_trans p6 (preserves_trans p7
    (preserves_trans p8 (preserves_trans p9 (preserves_trans p10
    (preserves_trans p11 (preserves_trans p12 p13))))))))))
  apply preserves_congr _ hchain
  intro c hc
  have hm : c ∉ tailTouched := contains_false_iff.mp hc
  apply contains_false_iff.mpr
  intro hmem
  apply hm
  simp only [tailTouched, List.mem_cons, List.mem_append, List.mem_singleton,
    List.not_mem_nil] at hmem ⊢
  tauto

theorem map_congr_mem {α β : Type} {l : List α} {f g : α → β}
    (h : ∀ a ∈ l, f a = g a) : l.map f = l.map g := by
  induction l with
  | nil => rfl
  | cons a t ih =>
    simp only [List.map_cons]
    rw [h a (List.mem_cons_self _ _), ih (fun x hx => h x (List.mem_cons_of_mem _ hx))]

theorem concat_step_facts {df13 df : DF} {etDict : Dict}
    (hconcat : eventTypeCols df13 etDict = Except.ok df) :
    df.rows.length = df13.rows.length ∧
    (∀ c, df13.cols.contains c = true → getCol df c = getCol df13 c) ∧
    (∀ c, (etDict.map Prod.fst).contains c = false → getCol df c = getCol df13 c) ∧
    (∀ c, df13.cols.contains c = true → df.cols.contains c = true) ∧
    (∀ c, df.cols.contains c = true →
      df13.cols.contains c = true ∨ (etDict.map Prod.fst).contains c = true) := by
  obtain ⟨vals, newCols, hsats, hdf, hfst, hlen⟩ := eventTypeCols_ok hconcat
  subst hdf
  obtain ⟨cl, cc, cg⟩ := concat_preserves newCols df13 hlen
  refine ⟨cl, fun c hc => cg c (Or.inl hc),
    fun c hc => cg c (Or.inr (by rw [hfst]; exact hc)), cc, fun c hc => ?_⟩
  rw [concat_cols_eq] at hc
  rcases List.mem_append.mp (contains_iff_mem.mp hc) with h | h
  · exact Or.inl (contains_iff_mem.mpr h)
  · rw [hfst] at h
    exact Or.inr (contains_iff_mem.mpr h)

/-- C4: the events table carries the match-level values on every row: each of
the nine keys copied from `match_data` (`matchId`, `startDate`, `startTime`,
`score`, `ftScore`, `htScore`, `etScore`, `venueName`, `maxMinute`) appears as
a column equal to the corresponding top-level value of `match_data`,
replicated over all event rows. -/
theorem extract_events_match_level_columns {md : Dict} {df : DF}
    (hok : extract_events md = Except.ok df) :
    ∀ k, nineKeys.contains k = true →
      (List.lookup k md).isSome = true ∧
      getCol df k = some (List.replicate df.rows.length
        ((List.lookup k md).getD JVal.null)) := by
  obtain ⟨evList, evs, evs2, df1, df2, df3, df4, etDict, df5, df6, df9,
    pidDict, df10, hid, aid, df11, df12, df13, hev, hevs, hevs2, h1, h2, h3,
    h4, het, h5, h6, h9, hpid, h10, h11, h12, h13, hconcat⟩ :=
    extract_events_ok hok
  intro k hk
  -- the period column exists in the base frame, so there is at least one event
  obtain ⟨vals0, fss0, hvals0, _, _, _⟩ := normalizeDN_ok h1
  have hper : (unionKeys evs2).contains "period" = true := getCol_contains hvals0
  have hne2 : evs2 ≠ [] := by
    intro he
    subst he
    simp [unionKeys, List.contains] at hper
  -- the nine keys were looked up and written into every event
  rcases mapM_bindK_ok hevs2 with ⟨hevsnil, hevs2nil⟩ | ⟨kvs, hkvs, hevs2map⟩
  · exact absurd hevs2nil hne2
  obtain ⟨hkvseq, hsome⟩ := nineKVs_ok hkvs
  have hkmem : k ∈ nineKeys := contains_iff_mem.mp hk
  refine ⟨hsome k hkmem, ?_⟩
  have hkvsfst : kvs.map Prod.fst = nineKeys := by
    rw [hkvseq, List.map_map]
    show List.map (fun k => k) nineKeys = nineKeys
    exact List.map_id _
  have hnodup : (kvs.map Prod.fst).Nodup := by
    rw [hkvsfst]
    decide
  have hkv : (k, (List.lookup k md).getD JVal.null) ∈ kvs := by
    rw [hkvseq]
    exact List.mem_map.mpr ⟨k, hkmem, rfl⟩
  -- every updated event holds the value under k
  have hval : ∀ e2 ∈ evs2, List.lookup k e2 =
      some ((List.lookup k md).getD JVal.null) := by
    intro e2 he2
    rw [hevs2map] at he2
    obtain ⟨e, he, heq⟩ := List.mem_map.mp he2
    rw [← heq]
    exact lookup_foldl_dictSet_mem kvs e hnodup hkv
  -- the column exists in the base frame
  have hcont0 : (unionKeys evs2).contains k = true := by
    obtain ⟨e2, he2⟩ := List.exists_mem_of_ne_nil evs2 hne2
    exact unionKeys_contains_of he2 (lookup_isSome_key (by simp [hval e2 he2]))
  have hcol0 : getCol (pdDF evs2) k =
      some (List.replicate evs2.length ((List.lookup k md).getD JVal.null)) := by
    rw [getCol_pdDF_of_contains hcont0,
        @map_congr_mem _ _ _ _ (fun _ => (List.lookup k md).getD JVal.null)
          (fun e2 he2 => by rw [hval e2 he2]; rfl),
        List.map_const']
  -- the column is untouched afterwards
  have hall : nineKeys.all (fun k2 => (!(tailTouched.contains k2)) &&
      (!(List.contains ["period"] k2))) = true := by decide
  have hfacts := List.all_eq_true.mp hall k hkmem
  rw [Bool.and_eq_true, Bool.not_eq_true', Bool.not_eq_true'] at hfacts
  have ptail := tail_preserves h2 h3 h4 h5 h6 h9 h10 h11 h12 h13
  have p1 := normalizeDN_preserves h1
  obtain ⟨clen, cpres, _, ccont⟩ := concat_step_facts hconcat
  have hcont13 : df13.cols.contains k = true :=
    ptail.2.1 k (p1.2.1 k hcont0)
  have hrows : df.rows.length = evs2.length := by
    rw [clen, ptail.1, p1.1, pdDF_rows_length]
  rw [cpres k hcont13, ptail.2.2 k hfacts.1, p1.2.2 k hfacts.2, hcol0, hrows]

/-- Witness for C4 at a concrete two-event match blob. -/
theorem extract_events_match_level_columns_witness :
    (List.lookup "score" wMd).isSome = true ∧
    getCol wDf "score" = some (List.replicate wDf.rows.length
      ((List.lookup "score" wMd).getD JVal.null)) :=
  @extract_events_match_level_columns wMd wDf rfl "score" rfl

/-- C3: the events table has exactly one row per element of
`match_data["events"]`, in the same order: the row count equals the event
count, and every column that the pipeline copies verbatim (not rewritten in
place, not one of the nine match-level keys, not an event-type column) holds,
row by row in input order, exactly that key's value in the corresponding
event. -/
theorem extract_events_row_per_event {md : Dict} {df : DF} {evJs : List JVal}
    (hev : List.lookup "events" md = some (JVal.arr evJs))
    (hok : extract_events md = Except.ok df) :
    df.rows.length = evJs.length ∧
    ∀ c, untouchedB md c = true → df.cols.contains c = true →
      getCol df c = some (evJs.map (evCellOf c)) := by
  obtain ⟨evList, evs, evs2, df1, df2, df3, df4, etDict, df5, df6, df9,
    pidDict, df10, hid, aid, df11, df12, df13, hev2, hevs, hevs2, h1, h2, h3,
    h4, het, h5, h6, h9, hpid, h10, h11, h12, h13, hconcat⟩ :=
    extract_events_ok hok
  have hevL : evList = evJs := by
    rw [hev] at hev2
    exact (JVal.arr.inj (Option.some.inj hev2)).symm
  subst hevL
  have hshape : evList = evs.map JVal.obj := mapM_asObjE_shape hevs
  have hlenevs : evs.length = evList.length := mapM_ok_length hevs
  have p1 := normalizeDN_preserves h1
  have ptail := tail_preserves h2 h3 h4 h5 h6 h9 h10 h11 h12 h13
  obtain ⟨clen, cpres, cpresfree, ccont, csplit⟩ := concat_step_facts hconcat
  have hlen2 : evs2.length = evs.length := by
    rcases mapM_bindK_ok hevs2 with ⟨hnil, hnil2⟩ | ⟨kvs, hkvs, hmap⟩
    · rw [hnil, hnil2]
    · rw [hmap, List.length_map]
  have hrows : df.rows.length = evList.length := by
    rw [clen, ptail.1, p1.1, pdDF_rows_length, hlen2, hlenevs]
  refine ⟨hrows, fun c hu hc => ?_⟩
  -- unpack the untouched hypothesis
  unfold untouchedB at hu
  rw [Bool.and_eq_true, Bool.and_eq_true, Bool.not_eq_true', Bool.not_eq_true',
      Bool.not_eq_true'] at hu
  obtain ⟨⟨htouch, hnine⟩, hetn⟩ := hu
  have hetn2 : (etDict.map Prod.fst).contains c = false := by
    unfold etNamesOf at hetn
    rw [het] at hetn
    exact hetn
  -- the final column equals the base column
  have hsplit2 : df13.cols.contains c = true := by
    rcases csplit c hc with h | h
    · exact h
    · rw [h] at hetn2
      cases hetn2
  have htail2 : tailTouched.contains c = false ∧
      (List.contains ["period"] c) = false := by
    have hm : c ∉ touchedCols := contains_false_iff.mp htouch
    constructor
    · apply contains_false_iff.mpr
      intro hx
      apply hm
      simp only [touchedCols, tailTouched, List.mem_cons, List.not_mem_nil] at hx ⊢
      tauto
    · apply contains_false_iff.mpr
      intro hx
      apply hm
      simp only [touchedCols, List.mem_cons, List.mem_singleton,
        List.not_mem_nil] at hx ⊢
      tauto
  have hchain : getCol df c = getCol (pdDF evs2) c := by
    rw [cpres c hsplit2, ptail.2.2 c htail2.1, p1.2.2 c htail2.2]
  -- read the base column
  have hcol : getCol df c = some ((pdDF evs2).rows.map (fun r => r c)) := by
    rw [hchain]
    apply getCol_of_contains
    have := getCol_of_contains hc
    rw [hchain] at this
    exact getCol_contains this
  rw [hchain] at hcol ⊢
  have hcont0 : (unionKeys evs2).contains c = true := getCol_contains hcol
  rw [getCol_pdDF_of_contains hcont0]
  -- relate updated events to the harvested events
  rcases mapM_bindK_ok hevs2 with ⟨hnil, hnil2⟩ | ⟨kvs, hkvs, hmap⟩
  · subst hnil
    subst hnil2
    rw [hshape]
    simp
  · obtain ⟨hkvseq, _⟩ := nineKVs_ok hkvs
    have hkeys : ∀ p ∈ kvs, p.1 ≠ c := by
      intro p hp he
      rw [hkvseq] at hp
      obtain ⟨k2, hk2, hpe⟩ := List.mem_map.mp hp
      have : p.1 = k2 := by rw [← hpe]
      rw [this] at he
      subst he
      rw [contains_iff_mem.mpr hk2] at hnine
      cases hnine
    rw [hmap, List.map_map, hshape, List.map_map]
    apply congrArg some
    apply map_congr_mem
    intro e he
    show (List.lookup c (kvs.foldl (fun d p => dictSet d p.1 p.2) e)).getD
      JVal.null = evCellOf c (JVal.obj e)
    rw [lookup_foldl_dictSet_ne kvs e hkeys]
    rfl

/-- Witness for C3: two events survive as two rows, and the untouched
`eventId` column lists their ids in order. -/
theorem extract_events_row_per_event_witness :
    wDf.rows.length =
      (List.length [JVal.obj wEvent1, JVal.obj wEvent2]) ∧
    ∀ c, untouchedB wMd c = true → wDf.cols.contains c = true →
      getCol wDf c = some ([JVal.obj wEvent1, JVal.obj wEvent2].map (evCellOf c)) :=
  @extract_events_row_per_event wMd wDf [JVal.obj wEvent1, JVal.obj wEvent2]
    rfl rfl

theorem getD_map_lt {α β : Type} {l : List α} (f : α → β) {i : Nat}
    (h : i < l.length) (d : β) (d' : α) :
    (l.map f).getD i d = f (l.getD i d') := by
  rw [List.getD_eq_getElem?_getD, List.getD_eq_getElem?_getD,
      List.getElem?_map, List.getElem?_eq_getElem h]
  rfl

theorem getD_replicate_lt {α : Type} {n i : Nat} {a d : α} (h : i < n) :
    (List.replicate n a).getD i d = a := by
  rw [List.getD_eq_getElem?_getD, List.getElem?_replicate]
  simp [h]

theorem cleanNaBool_contains_self (df : DF) (c : String) :
    (cleanNaBool df c).cols.contains c = true := by
  unfold cleanNaBool
  cases hg : getCol df c with
  | some vals => exact setCol_contains_self
  | none => exact setCol_contains_self

theorem cleanNaBool_col_none {df : DF} {c : String}
    (hg : getCol df c = none) :
    getCol (cleanNaBool df c) c =
      some (List.replicate df.rows.length (JVal.bool false)) := by
  unfold cleanNaBool
  rw [hg]
  exact getCol_setCol_self (by simp)

theorem cleanNaBool_col_some {df : DF} {c : String} {vals : List JVal}
    (hg : getCol df c = some vals) :
    getCol (cleanNaBool df c) c =
      some (vals.map (fun v => match v with
        | JVal.null => JVal.bool false
        | v => v)) := by
  unfold cleanNaBool
  rw [hg]
  exact getCol_setCol_self (by simpa using getCol_length hg)

theorem naBool_final_col {evs2 : List Dict} {df6 dfF : DF} {c : String}
    (hbase : getCol df6 c = getCol (pdDF evs2) c)
    (hrows6 : df6.rows.length = evs2.length)
    (hfinal : getCol dfF c = getCol (cleanNaBool df6 c) c) :
    ∃ cells, getCol dfF c = some cells ∧ cells.length = evs2.length ∧
      (∀ x ∈ cells, JVal.isNull x = false) ∧
      ∀ i, i < evs2.length → List.lookup c (evs2.getD i []) = none →
        cells.getD i JVal.null = JVal.bool false := by
  have hnn : ∀ (v : JVal), JVal.isNull (match v with
      | JVal.null => JVal.bool false
      | v => v) = false := by
    intro v
    cases v <;> rfl
  cases hg : getCol df6 c with
  | none =>
    refine ⟨List.replicate df6.rows.length (JVal.bool false), ?_, by simp [hrows6], ?_, ?_⟩
    · rw [hfinal]
      exact cleanNaBool_col_none hg
    · intro x hx
      rw [List.eq_of_mem_replicate hx]
      rfl
    · intro i hi _
      rw [getD_replicate_lt (by rw [hrows6]; exact hi)]
  | some vals =>
    have hvals : vals = evs2.map (fun e => (List.lookup c e).getD JVal.null) := by
      have hb2 : getCol (pdDF evs2) c = some vals := by
        rw [← hbase, hg]
      have hc0 : (unionKeys evs2).contains c = true := getCol_contains hb2
      rw [getCol_pdDF_of_contains hc0] at hb2
      exact (Option.some.inj hb2).symm
    refine ⟨vals.map (fun v => match v with
      | JVal.null => JVal.bool false
      | v => v), ?_, ?_, ?_, ?_⟩
    · rw [hfinal]
      exact cleanNaBool_col_some hg
    · rw [List.length_map, hvals, List.length_map]
    · intro x hx
      obtain ⟨v, _, hv⟩ := List.mem_map.mp hx
      rw [← hv]
      exact hnn v
    · intro i hi hnone
      have hlen : i < vals.length := by
        rw [hvals, List.length_map]
        exact hi
      rw [getD_map_lt _ hlen JVal.null JVal.null, hvals,
          getD_map_lt _ (by rw [hvals, List.length_map] at hlen; exact hlen)
            JVal.null [], hnone]
      rfl

/-- C10: the events table always carries `isShot` and `isGoal` columns with no
missing cells: the column exists, holds no null, and an event lacking the
field reads `False` there rather than null, also when no event carries the
field at all. -/
theorem extract_events_isShot_isGoal_filled {md : Dict} {df : DF}
    {evJs : List JVal}
    (hev : List.lookup "events" md = some (JVal.arr evJs))
    (hok : extract_events md = Except.ok df) :
    df.cols.contains "isShot" = true ∧ df.cols.contains "isGoal" = true ∧
    colAllNonNull df "isShot" = true ∧ colAllNonNull df "isGoal" = true ∧
    (∀ i, i < evJs.length → evLacks evJs i "isShot" = true →
      cellAt df "isShot" i = JVal.bool false) ∧
    (∀ i, i < evJs.length → evLacks evJs i "isGoal" = true →
      cellAt df "isGoal" i = JVal.bool false) := by
  obtain ⟨evList, evs, evs2, df1, df2, df3, df4, etDict, df5, df6, df9,
    pidDict, df10, hid, aid, df11, df12, df13, hev2, hevs, hevs2, h1, h2, h3,
    h4, het, h5, h6, h9, hpid, h10, h11, h12, h13, hconcat⟩ :=
    extract_events_ok hok
  have hevL : evList = evJs := by
    rw [hev] at hev2
    exact (JVal.arr.inj (Option.some.inj hev2)).symm
  subst hevL
  have hshape : evList = evs.map JVal.obj := mapM_asObjE_shape hevs
  have hlenevs : evs.length = evList.length := mapM_ok_length hevs
  have p1 := normalizeDN_preserves h1
  have p2 := normalizeDN_preserves h2
  have p3 := normalizeDN_preserves h3
  have p4 := cleanCardType_preserves h4
  have p5 := cleanSats_preserves h5
  have p6 := cleanQualifiers_preserves h6
  have p7 := cleanNaBool_preserves df6 "isShot"
  have p8 := cleanNaBool_preserves (cleanNaBool df6 "isShot") "isGoal"
  have p9 := castPlayerId_preserves h9
  have p10 := addPlayerName_preserves h10
  have p11 := addHA_preserves h11
  have p12 := shotCol_preserves h12
  have p13 := shotCol_preserves h13
  obtain ⟨clen, cpres, cpresfree, ccont, csplit⟩ := concat_step_facts hconcat
  -- the base frame column survives to df6 / df7
  have e6S : getCol df6 "isShot" = getCol (pdDF evs2) "isShot" := by
    rw [p6.2.2 _ (by decide), p5.2.2 _ (by decide), p4.2.2 _ (by decide),
        p3.2.2 _ (by decide), p2.2.2 _ (by decide), p1.2.2 _ (by decide)]
  have e7G : getCol (cleanNaBool df6 "isShot") "isGoal" =
      getCol (pdDF evs2) "isGoal" := by
    rw [p7.2.2 _ (by decide), p6.2.2 _ (by decide), p5.2.2 _ (by decide),
        p4.2.2 _ (by decide), p3.2.2 _ (by decide), p2.2.2 _ (by decide),
        p1.2.2 _ (by decide)]
  have hrows6 : df6.rows.length = evs2.length := by
    rw [p6.1, p5.1, p4.1, p3.1, p2.1, p1.1, pdDF_rows_length]
  have hrows7 : (cleanNaBool df6 "isShot").rows.length = evs2.length := by
    rw [p7.1, hrows6]
  -- the written columns survive to the final frame
  have hcS13 : df13.cols.contains "isShot" = true :=
    p13.2.1 _ (p12.2.1 _ (p11.2.1 _ (p10.2.1 _ (p9.2.1 _
      (p8.2.1 _ (cleanNaBool_contains_self df6 "isShot"))))))
  have hcG13 : df13.cols.contains "isGoal" = true :=
    p13.2.1 _ (p12.2.1 _ (p11.2.1 _ (p10.2.1 _ (p9.2.1 _
      (cleanNaBool_contains_self (cleanNaBool df6 "isShot") "isGoal")))))
  have eFS : getCol df "isShot" = getCol (cleanNaBool df6 "isShot") "isShot" := by
    rw [cpres _ hcS13, p13.2.2 _ (by decide), p12.2.2 _ (by decide),
        p11.2.2 _ (by decide), p10.2.2 _ (by decide), p9.2.2 _ (by decide),
        p8.2.2 _ (by decide)]
  have eFG : getCol df "isGoal" =
      getCol (cleanNaBool (cleanNaBool df6 "isShot") "isGoal") "isGoal" := by
    rw [cpres _ hcG13, p13.2.2 _ (by decide), p12.2.2 _ (by decide),
        p11.2.2 _ (by decide), p10.2.2 _ (by decide), p9.2.2 _ (by decide)]
  obtain ⟨cellsS, hgS, hlenS, hnnS, hfalseS⟩ :=
    naBool_final_col e6S hrows6 eFS
  obtain ⟨cellsG, hgG, hlenG, hnnG, hfalseG⟩ :=
    naBool_final_col e7G hrows7 eFG
  -- translate a missing field in event i into a missing key in the updated event
  have htrans : ∀ (c : String), nineKeys.contains c = false →
      ∀ i, i < evList.length → evLacks evList i c = true →
      List.lookup c (evs2.getD i []) = none := by
    intro c hnine i hi hlacks
    rcases mapM_bindK_ok hevs2 with ⟨hnil, hnil2⟩ | ⟨kvs, hkvs, hmap⟩
    · subst hnil
      rw [hshape] at hi
      simp at hi
    · obtain ⟨hkvseq, _⟩ := nineKVs_ok hkvs
      have hkeys : ∀ p ∈ kvs, p.1 ≠ c := by
        intro p hp he
        rw [hkvseq] at hp
        obtain ⟨k2, hk2, hpe⟩ := List.mem_map.mp hp
        have hp1 : p.1 = k2 := by rw [← hpe]
        rw [hp1] at he
        subst he
        rw [contains_iff_mem.mpr hk2] at hnine
        cases hnine
      have hilen : i < evs.length := by
        rw [hlenevs]
        exact hi
      rw [hmap, getD_map_lt _ hilen [] []]
      rw [lookup_foldl_dictSet_ne kvs _ hkeys]
      unfold evLacks at hlacks
      rw [hshape, getD_map_lt _ hilen (JVal.str "missing") []] at hlacks
      have hlacks2 : (List.lookup c (evs.getD i [])).isNone = true := hlacks
      exact Option.isNone_iff_eq_none.mp hlacks2
  have hlen0 : evList.length = evs2.length := by
    rcases mapM_bindK_ok hevs2 with ⟨hnil, hnil2⟩ | ⟨kvs, hkvs, hmap⟩
    · subst hnil
      rw [hshape, hnil2]
      rfl
    · rw [hmap, List.length_map, hlenevs]
  refine ⟨ccont _ hcS13, ccont _ hcG13, ?_, ?_, ?_, ?_⟩
  · unfold colAllNonNull
    rw [hgS]
    exact List.all_eq_true.mpr (fun x hx => by simpa using hnnS x hx)
  · unfold colAllNonNull
    rw [hgG]
    exact List.all_eq_true.mpr (fun x hx => by simpa using hnnG x hx)
  · intro i hi hlacks
    unfold cellAt
    rw [hgS]
    exact hfalseS i (by rw [← hlen0]; exact hi)
      (htrans "isShot" (by decide) i hi hlacks)
  · intro i hi hlacks
    unfold cellAt
    rw [hgG]
    exact hfalseG i (by rw [← hlen0]; exact hi)
      (htrans "isGoal" (by decide) i hi hlacks)

/-- Witness for C10 at the concrete match blob: neither event carries the
fields, so both columns are all-`False`. -/
theorem extract_events_isShot_isGoal_filled_witness :
    wDf.cols.contains "isShot" = true ∧ wDf.cols.contains "isGoal" = true ∧
    colAllNonNull wDf "isShot" = true ∧ colAllNonNull wDf "isGoal" = true ∧
    (∀ i, i < (List.length [JVal.obj wEvent1, JVal.obj wEvent2]) →
      evLacks [JVal.obj wEvent1, JVal.obj wEvent2] i "isShot" = true →
      cellAt wDf "isShot" i = JVal.bool false) ∧
    (∀ i, i < (List.length [JVal.obj wEvent1, JVal.obj wEvent2]) →
      evLacks [JVal.obj wEvent1, JVal.obj wEvent2] i "isGoal" = true →
      cellAt wDf "isGoal" i = JVal.bool false) :=
  @extract_events_isShot_isGoal_filled wMd wDf
    [JVal.obj wEvent1, JVal.obj wEvent2] rfl rfl

theorem key_mem_lookup_isSome {e : Dict} {k : String} (h : k ∈ e.map Prod.fst) :
    (List.lookup k e).isSome = true := by
  induction e with
  | nil => simp at h
  | cons p t ih =>
    obtain ⟨pk, pv⟩ := p
    by_cases hk : k = pk
    · subst hk
      rw [lookup_cons_self]
      rfl
    · rw [lookup_cons_ne hk]
      apply ih
      simp only [List.map_cons, List.mem_cons] at h
      rcases h with h1 | h2
      · exact absurd h1 hk
      · simpa using h2

theorem flatOK_mem {evJs : List JVal} (h : flatOK evJs = true) {e : Dict}
    (he : JVal.obj e ∈ evJs) :
    dnOK e "period" = true ∧ dnOK e "type" = true ∧
    dnOK e "outcomeType" = true ∧ cardOK e = true := by
  have h2 : (dnOK e "period" && dnOK e "type" && dnOK e "outcomeType" &&
      cardOK e) = true := List.all_eq_true.mp h (JVal.obj e) he
  rw [Bool.and_eq_true, Bool.and_eq_true, Bool.and_eq_true] at h2
  exact ⟨h2.1.1.1, h2.1.1.2, h2.1.2, h2.2⟩

theorem dn_cols_eq {c : String} :
    ∀ (evs fss : List Dict),
    fss.map JVal.obj = evs.map (fun e => (List.lookup c e).getD JVal.null) →
    (∀ e ∈ evs, dnOK e c = true) →
    ((fss.map (fun fs => scalarLookup fs "displayName")).map
      (fun o => o.getD JVal.null)) =
      evs.map (fun e => dnCell c (JVal.obj e)) := by
  intro evs
  induction evs with
  | nil =>
    intro fss h _
    cases fss with
    | nil => rfl
    | cons fs fst => simp at h
  | cons e t ih =>
    intro fss h hOK
    cases fss with
    | nil => simp at h
    | cons fs fst =>
      simp only [List.map_cons, List.cons.injEq] at h
      obtain ⟨hhead, htail⟩ := h
      have hok := hOK e (List.mem_cons_self _ _)
      simp only [List.map_cons]
      rw [ih fst htail (fun x hx => hOK x (List.mem_cons_of_mem _ hx))]
      unfold dnOK at hok
      cases hlc : List.lookup c e with
      | none => simp [hlc] at hok
      | some v =>
        simp only [hlc] at hok
        cases v with
        | obj fs2 =>
          rw [hlc] at hhead
          have hfs : fs = fs2 := JVal.obj.inj hhead
          subst hfs
          cases hdn : List.lookup "displayName" fs with
          | none => simp [hdn] at hok
          | some dv =>
            simp only [hdn] at hok
            cases dv with
            | str s =>
              congr 1
              simp [scalarLookup, hdn, dnCell, hlc]
            | null => simp at hok
            | bool b => simp at hok
            | int n => simp at hok
            | obj fs3 => simp at hok
            | arr xs => simp at hok
        | null => simp at hok
        | bool b => simp at hok
        | str s => simp at hok
        | int n => simp at hok
        | arr xs => simp at hok

theorem card_cols_eq :
    ∀ (evs fss : List Dict),
    fss.map JVal.obj =
      (evs.map (fun e => (List.lookup "cardType" e).getD JVal.null)).map
        (fun v => match v with
          | JVal.null => JVal.obj []
          | v => v) →
    (∀ e ∈ evs, cardOK e = true) →
    ((fss.map (fun fs => scalarLookup fs "displayName")).map
      (fun o => match o with
        | some JVal.null => JVal.bool false
        | some v => v
        | none => JVal.bool false)) =
      evs.map (fun e => cardCell (JVal.obj e)) := by
  intro evs
  induction evs with
  | nil =>
    intro fss h _
    cases fss with
    | nil => rfl
    | cons fs fst => simp at h
  | cons e t ih =>
    intro fss h hOK
    cases fss with
    | nil => simp at h
    | cons fs fst =>
      simp only [List.map_cons, List.cons.injEq] at h
      obtain ⟨hhead, htail⟩ := h
      have hok := hOK e (List.mem_cons_self _ _)
      simp only [List.map_cons]
      rw [ih fst htail (fun x hx => hOK x (List.mem_cons_of_mem _ hx))]
      unfold cardOK at hok
      cases hlc : List.lookup "cardType" e with
      | none =>
        simp only [hlc] at hhead
        have hfs : fs = [] := JVal.obj.inj hhead
        subst hfs
        congr 1
        simp only [scalarLookup, List.lookup, cardCell, hlc]
      | some v =>
        simp only [hlc] at hok
        cases v with
        | obj fs2 =>
          simp only [hlc] at hhead
          have hfs : fs = fs2 := JVal.obj.inj hhead
          subst hfs
          cases hdn : List.lookup "displayName" fs with
          | none => simp [hdn] at hok
          | some dv =>
            simp only [hdn] at hok
            cases dv with
            | str s =>
              congr 1
              simp [scalarLookup, hdn, cardCell, hlc]
            | null => simp at hok
            | bool b => simp at hok
            | int n => simp at hok
            | obj fs3 => simp at hok
            | arr xs => simp at hok
        | null => simp at hok
        | bool b => simp at hok
        | str s => simp at hok
        | int n => simp at hok
        | arr xs => simp at hok

theorem dn_step_col {dfin dfout : DF} {c : String} {evs evs2 : List Dict}
    {kvs : List (String × JVal)}
    (hstep : normalizeDN dfin c = Except.ok dfout)
    (hbase : getCol dfin c = getCol (pdDF evs2) c)
    (hevs2 : evs2 = evs.map (fun e => kvs.foldl (fun d p => dictSet d p.1 p.2) e))
    (hkeys : ∀ p ∈ kvs, p.1 ≠ c)
    (hOK : ∀ e ∈ evs, dnOK e c = true) :
    getCol dfout c = some (evs.map (fun e => dnCell c (JVal.obj e))) := by
  obtain ⟨vals, fss, hv, hm, hnall, hdf⟩ := normalizeDN_ok hstep
  have hv2 : getCol (pdDF evs2) c = some vals := by
    rw [← hbase, hv]
  have hc0 : (unionKeys evs2).contains c = true := getCol_contains hv2
  have hvals : vals = evs2.map (fun e => (List.lookup c e).getD JVal.null) := by
    rw [getCol_pdDF_of_contains hc0] at hv2
    exact (Option.some.inj hv2).symm
  have hsource : fss.map JVal.obj =
      evs.map (fun e => (List.lookup c e).getD JVal.null) := by
    rw [← mapM_asObjE_shape hm, hvals, hevs2, List.map_map]
    apply map_congr_mem
    intro e he
    show (List.lookup c (kvs.foldl (fun d p => dictSet d p.1 p.2) e)).getD
      JVal.null = (List.lookup c e).getD JVal.null
    rw [lookup_foldl_dictSet_ne kvs e hkeys]
  have hlen : ((fss.map (fun fs => scalarLookup fs "displayName")).map
      (fun o => o.getD JVal.null)).length = dfin.rows.length := by
    simp only [List.length_map]
    rw [mapM_ok_length hm]
    exact getCol_length hv
  rw [hdf, getCol_setCol_self hlen, dn_cols_eq evs fss hsource hOK]

/-- C1: under well-formed nested objects the events table is flat in the
`period`, `type`, `outcomeType` and `cardType` columns: each holds exactly the
nested object's `displayName` string, with `cardType` reading `False` on
events that carry no card. -/
theorem extract_events_flattens_display_names {md : Dict} {df : DF}
    {evJs : List JVal}
    (hev : List.lookup "events" md = some (JVal.arr evJs))
    (hflat : flatOK evJs = true)
    (hok : extract_events md = Except.ok df) :
    getCol df "period" = some (evJs.map (dnCell "period")) ∧
    getCol df "type" = some (evJs.map (dnCell "type")) ∧
    getCol df "outcomeType" = some (evJs.map (dnCell "outcomeType")) ∧
    getCol df "cardType" = some (evJs.map cardCell) := by
  obtain ⟨evList, evs, evs2, df1, df2, df3, df4, etDict, df5, df6, df9,
    pidDict, df10, hid, aid, df11, df12, df13, hev2, hevs, hevs2, h1, h2, h3,
    h4, het, h5, h6, h9, hpid, h10, h11, h12, h13, hconcat⟩ :=
    extract_events_ok hok
  have hevL : evList = evJs := by
    rw [hev] at hev2
    exact (JVal.arr.inj (Option.some.inj hev2)).symm
  subst hevL
  have hshape : evList = evs.map JVal.obj := mapM_asObjE_shape hevs
  have p1 := normalizeDN_preserves h1
  have p2 := normalizeDN_preserves h2
  have p3 := normalizeDN_preserves h3
  have p4 := cleanCardType_preserves h4
  have p5 := cleanSats_preserves h5
  have p6 := cleanQualifiers_preserves h6
  have p7 := cleanNaBool_preserves df6 "isShot"
  have p8 := cleanNaBool_preserves (cleanNaBool df6 "isShot") "isGoal"
  have p9 := castPlayerId_preserves h9
  have p10 := addPlayerName_preserves h10
  have p11 := addHA_preserves h11
  have p12 := shotCol_preserves h12
  have p13 := shotCol_preserves h13
  obtain ⟨clen, cpres, cpresfree, ccont, csplit⟩ := concat_step_facts hconcat
  -- there is at least one event, so the nine keys were resolved
  obtain ⟨vals0, fss0, hv0, _, _, _⟩ := normalizeDN_ok h1
  have hper := getCol_contains hv0
  have hne2 : evs2 ≠ [] := by
    intro he
    subst he
    simp [pdDF, unionKeys, List.contains] at hper
  rcases mapM_bindK_ok hevs2 with ⟨_, h2nil⟩ | ⟨kvs, hkvs, hmap⟩
  · exact absurd h2nil hne2
  obtain ⟨hkvseq, _⟩ := nineKVs_ok hkvs
  have hkeysOf : ∀ (c : String), nineKeys.contains c = false →
      ∀ p ∈ kvs, p.1 ≠ c := by
    intro c hnine p hp he
    rw [hkvseq] at hp
    obtain ⟨k2, hk2, hpe⟩ := List.mem_map.mp hp
    have hp1 : p.1 = k2 := by rw [← hpe]
    rw [hp1] at he
    subst he
    rw [contains_iff_mem.mpr hk2] at hnine
    cases hnine
  have hOKs : ∀ e ∈ evs, dnOK e "period" = true ∧ dnOK e "type" = true ∧
      dnOK e "outcomeType" = true ∧ cardOK e = true := by
    intro e he
    exact flatOK_mem hflat (by rw [hshape]; exact List.mem_map_of_mem _ he)
  -- the three normalized columns
  have hcol1 : getCol df1 "period" =
      some (evs.map (fun e => dnCell "period" (JVal.obj e))) :=
    dn_step_col h1 rfl hmap (hkeysOf _ (by decide)) (fun e he => (hOKs e he).1)
  have hcol2 : getCol df2 "type" =
      some (evs.map (fun e => dnCell "type" (JVal.obj e))) :=
    dn_step_col h2 (p1.2.2 _ (by decide)) hmap (hkeysOf _ (by decide))
      (fun e he => (hOKs e he).2.1)
  have hcol3 : getCol df3 "outcomeType" =
      some (evs.map (fun e => dnCell "outcomeType" (JVal.obj e))) :=
    dn_step_col h3 (by rw [p2.2.2 _ (by decide), p1.2.2 _ (by decide)]) hmap
      (hkeysOf _ (by decide)) (fun e he => (hOKs e he).2.2.1)
  -- the cardType column
  have hbase4 : getCol df3 "cardType" = getCol (pdDF evs2) "cardType" := by
    rw [p3.2.2 _ (by decide), p2.2.2 _ (by decide), p1.2.2 _ (by decide)]
  have hrows3 : df3.rows.length = evs.length := by
    rw [p3.1, p2.1, p1.1, pdDF_rows_length, hmap, List.length_map]
  have hlookup_fold : ∀ e, List.lookup "cardType"
      (kvs.foldl (fun d p => dictSet d p.1 p.2) e) = List.lookup "cardType" e :=
    fun e => lookup_foldl_dictSet_ne kvs e (hkeysOf _ (by decide))
  have hcol4 : getCol df4 "cardType" =
      some (evs.map (fun e => cardCell (JVal.obj e))) := by
    rcases cleanCardType_ok h4 with ⟨hg, hdf4⟩ | ⟨vals, fss, hg, hm, hcases⟩
    · -- no event carries a card: the whole column is False
      rw [hbase4] at hg
      have hcont : (unionKeys evs2).contains "cardType" = false := by
        by_cases hx : (unionKeys evs2).contains "cardType" = true
        · rw [getCol_pdDF_of_contains hx] at hg
          cases hg
        · simpa using hx
      have hnone : ∀ e ∈ evs, List.lookup "cardType" e = none := by
        intro e he
        have := unionKeys_not_contains hcont
          (kvs.foldl (fun d p => dictSet d p.1 p.2) e)
          (by rw [hmap]; exact List.mem_map_of_mem _ he)
        rw [hlookup_fold e] at this
        exact this
      rw [hdf4, getCol_setCol_self (by simp)]
      have : evs.map (fun e => cardCell (JVal.obj e)) =
          evs.map (fun _ => JVal.bool false) :=
        map_congr_mem (fun e he => by simp [cardCell, hnone e he])
      rw [this, List.map_const', hrows3]
    · -- some event carries a card
      have hg2 : getCol (pdDF evs2) "cardType" = some vals := by
        rw [← hbase4, hg]
      have hc0 : (unionKeys evs2).contains "cardType" = true :=
        getCol_contains hg2
      have hvals : vals = evs2.map (fun e =>
          (List.lookup "cardType" e).getD JVal.null) := by
        rw [getCol_pdDF_of_contains hc0] at hg2
        exact (Option.some.inj hg2).symm
      have hsource : fss.map JVal.obj =
          (evs.map (fun e => (List.lookup "cardType" e).getD JVal.null)).map
            (fun v => match v with
              | JVal.null => JVal.obj []
              | v => v) := by
        rw [← mapM_asObjE_shape hm, hvals, hmap, List.map_map, List.map_map,
            List.map_map]
        apply map_congr_mem
        intro e he
        show (match (List.lookup "cardType"
            (kvs.foldl (fun d p => dictSet d p.1 p.2) e)).getD JVal.null with
          | JVal.null => JVal.obj []
          | v => v) = _
        rw [hlookup_fold e]
        rfl
      rcases hcases with ⟨hall, hdf4⟩ | ⟨hall, hdf4⟩
      · -- impossible: the event holding the card has a display name
        exfalso
        obtain ⟨e2, he2, hkey⟩ := unionKeys_contains_to hc0
        rw [hmap] at he2
        obtain ⟨e, he, heq⟩ := List.mem_map.mp he2
        have hsomev : (List.lookup "cardType" e).isSome = true := by
          have := key_mem_lookup_isSome hkey
          rw [← heq, hlookup_fold e] at this
          exact this
        have hcOK := (hOKs e he).2.2.2
        unfold cardOK at hcOK
        cases hlc : List.lookup "cardType" e with
        | none =>
          rw [hlc] at hsomev
          cases hsomev
        | some v =>
          simp only [hlc] at hcOK
          cases v with
          | obj fs2 =>
            cases hdn : List.lookup "displayName" fs2 with
            | none => simp [hdn] at hcOK
            | some dv =>
              simp only [hdn] at hcOK
              cases dv with
              | str s =>
                -- fs2 appears in fss with a non-none scalar display name
                have hx : JVal.obj fs2 ∈ fss.map JVal.obj := by
                  rw [hsource]
                  apply List.mem_map.mpr
                  refine ⟨(List.lookup "cardType" e).getD JVal.null,
                    List.mem_map_of_mem _ he, ?_⟩
                  rw [hlc]
                  rfl
                obtain ⟨fs3, hfs3, hfs3e⟩ := List.mem_map.mp hx
                have hfs23 : fs3 = fs2 := JVal.obj.inj hfs3e
                subst hfs23
                have := List.all_eq_true.mp hall (scalarLookup fs3 "displayName")
                  (List.mem_map_of_mem _ hfs3)
                rw [show scalarLookup fs3 "displayName" = some (JVal.str s) by
                  simp [scalarLookup, hdn]] at this
                cases this
              | null => simp at hcOK
              | bool b => simp at hcOK
              | int n => simp at hcOK
              | obj fs4 => simp at hcOK
              | arr xs => simp at hcOK
          | null => simp at hcOK
          | bool b => simp at hcOK
          | str s => simp at hcOK
          | int n => simp at hcOK
          | arr xs => simp at hcOK
      · -- the fillna path: display names with False where the card is absent
        have hlen : (((fss.map (fun fs => scalarLookup fs "displayName")).map
            (fun o => match o with
              | some JVal.null => JVal.bool false
              | some v => v
              | none => JVal.bool false))).length = df3.rows.length := by
          simp only [List.length_map]
          rw [mapM_ok_length hm]
          simp only [List.length_map]
          exact getCol_length hg
        rw [hdf4, getCol_setCol_self hlen,
            card_cols_eq evs fss hsource (fun e he => (hOKs e he).2.2.2)]
  -- carry each column to the final frame
  have ptail := tail_preserves h2 h3 h4 h5 h6 h9 h10 h11 h12 h13
  have hcP13 : df13.cols.contains "period" = true :=
    ptail.2.1 _ (getCol_contains hcol1)
  have hcT13 : df13.cols.contains "type" = true :=
    p13.2.1 _ (p12.2.1 _ (p11.2.1 _ (p10.2.1 _ (p9.2.1 _ (p8.2.1 _ (p7.2.1 _
      (p6.2.1 _ (p5.2.1 _ (p4.2.1 _ (p3.2.1 _ (getCol_contains hcol2)))))))))))
  have hcO13 : df13.cols.contains "outcomeType" = true :=
    p13.2.1 _ (p12.2.1 _ (p11.2.1 _ (p10.2.1 _ (p9.2.1 _ (p8.2.1 _ (p7.2.1 _
      (p6.2.1 _ (p5.2.1 _ (p4.2.1 _ (getCol_contains hcol3))))))))))
  have hcC13 : df13.cols.contains "cardType" = true :=
    p13.2.1 _ (p12.2.1 _ (p11.2.1 _ (p10.2.1 _ (p9.2.1 _ (p8.2.1 _ (p7.2.1 _
      (p6.2.1 _ (p5.2.1 _ (getCol_contains hcol4)))))))))
  have eP : getCol df "period" = getCol df1 "period" := by
    rw [cpres _ hcP13, ptail.2.2 _ (by decide)]
  have eT : getCol df "type" = getCol df2 "type" := by
    rw [cpres _ hcT13, p13.2.2 _ (by decide), p12.2.2 _ (by decide),
        p11.2.2 _ (by decide), p10.2.2 _ (by decide), p9.2.2 _ (by decide),
        p8.2.2 _ (by decide), p7.2.2 _ (by decide), p6.2.2 _ (by decide),
        p5.2.2 _ (by decide), p4.2.2 _ (by decide), p3.2.2 _ (by decide)]
  have eO : getCol df "outcomeType" = getCol df3 "outcomeType" := by
    rw [cpres _ hcO13, p13.2.2 _ (by decide), p12.2.2 _ (by decide),
        p11.2.2 _ (by decide), p10.2.2 _ (by decide), p9.2.2 _ (by decide),
        p8.2.2 _ (by decide), p7.2.2 _ (by decide), p6.2.2 _ (by decide),
        p5.2.2 _ (by decide), p4.2.2 _ (by decide)]
  have eC : getCol df "cardType" = getCol df4 "cardType" := by
    rw [cpres _ hcC13, p13.2.2 _ (by decide), p12.2.2 _ (by decide),
        p11.2.2 _ (by decide), p10.2.2 _ (by decide), p9.2.2 _ (by decide),
        p8.2.2 _ (by decide), p7.2.2 _ (by decide), p6.2.2 _ (by decide),
        p5.2.2 _ (by decide)]
  refine ⟨?_, ?_, ?_, ?_⟩
  · rw [eP, hcol1, hshape, List.map_map]
    rfl
  · rw [eT, hcol2, hshape, List.map_map]
    rfl
  · rw [eO, hcol3, hshape, List.map_map]
    rfl
  · rw [eC, hcol4, hshape, List.map_map]
    rfl

/-- Witness for C1: a pass and a yellow-card event flatten to their display
names, the card column reading `False` on the pass. -/
theorem extract_events_flattens_display_names_witness :
    getCol wDf "period" =
      some ([JVal.obj wEvent1, JVal.obj wEvent2].map (dnCell "period")) ∧
    getCol wDf "type" =
      some ([JVal.obj wEvent1, JVal.obj wEvent2].map (dnCell "type")) ∧
    getCol wDf "outcomeType" =
      some ([JVal.obj wEvent1, JVal.obj wEvent2].map (dnCell "outcomeType")) ∧
    getCol wDf "cardType" =
      some ([JVal.obj wEvent1, JVal.obj wEvent2].map cardCell) :=
  @extract_events_flattens_display_names wMd wDf
    [JVal.obj wEvent1, JVal.obj wEvent2] rfl rfl rfl

/-- C5: the only failure recovery is printing and returning `None`: whenever
the wrapped pipeline raises, `fetch_match_events` returns `(None, None)` (and
otherwise returns both values), `collate_season_data` and
`collate_season_events` return `None`; none of the three wrappers lets the
exception escape. -/
theorem error_recovery_returns_none :
    (∀ fetched e, fetchMatchEventsBody fetched = Except.error e →
      fetch_match_events fetched = (none, none)) ∧
    (∀ fetched, fetch_match_events fetched = (none, none) ∨
      ∃ m d, fetch_match_events fetched = (some m, some d)) ∧
    (∀ comps fm team fd e,
      collateSeasonDataBody comps fm team fd = Except.error e →
      collate_season_data comps fm team fd = none) ∧
    (∀ comps fm team fd e,
      collateSeasonEventsBody comps fm team fd = Except.error e →
      collate_season_events comps fm team fd = none) := by
  refine ⟨?_, ?_, ?_, ?_⟩
  · intro fetched e h
    unfold fetch_match_events
    rw [h]
  · intro fetched
    unfold fetch_match_events
    cases hb : fetchMatchEventsBody fetched with
    | ok p =>
      obtain ⟨m, d⟩ := p
      exact Or.inr ⟨m, d, rfl⟩
    | error e => exact Or.inl rfl
  · intro comps fm team fd e h
    unfold collate_season_data
    rw [h]
  · intro comps fm team fd e h
    unfold collate_season_events
    rw [h]

/-- Witness for C5: a failed page fetch yields `(None, None)`, a failed
competition listing yields `None`, and a failing event extraction inside the
season loop yields `None`. -/
theorem error_recovery_returns_none_witness :
    fetch_match_events (Except.error "boom") = (none, none) ∧
    collate_season_data (Except.error "down") (Except.ok []) none
      (fun ms => Except.ok ms) = none ∧
    collate_season_events (Except.ok []) (Except.ok []) none
      (fun _ => Except.ok [[]]) = none :=
  ⟨error_recovery_returns_none.1 (Except.error "boom") "boom" rfl,
   error_recovery_returns_none.2.2.1 (Except.error "down") (Except.ok []) none
     (fun ms => Except.ok ms) "down" rfl,
   error_recovery_returns_none.2.2.2 (Except.ok []) (Except.ok []) none
     (fun _ => Except.ok [[]]) "KeyError: events" rfl⟩

theorem odictInsert_fresh {k : JVal} {v : Dict} :
    ∀ {acc : List (JVal × Dict)},
    acc.any (fun p => JVal.beq p.1 k) = false →
    odictInsert acc k v = acc ++ [(k, v)] := by
  intro acc
  induction acc with
  | nil => intro _; rfl
  | cons p t ih =>
    intro h
    rw [List.any_cons] at h
    by_cases hb : JVal.beq p.1 k = true
    · rw [hb] at h
      simp at h
    · have hb' : JVal.beq p.1 k = false := by simpa using hb
      rw [hb'] at h
      simp only [Bool.false_or] at h
      unfold odictInsert
      rw [if_neg (fun hx => hb hx), ih h]
      rfl

theorem team_fold_ok {t : String} :
    ∀ (l : List Dict) (acc : List (JVal × Dict)),
    (l.filter (fun m => teamIn m t)).all
      (fun m => (List.lookup "url" m).isSome) = true →
    jvNodup ((l.filter (fun m => teamIn m t)).map urlOfD) = true →
    (∀ m ∈ l.filter (fun m => teamIn m t),
      acc.any (fun p => JVal.beq p.1 (urlOfD m)) = false) →
    l.foldlM (fun acc m =>
        if teamIn m t then do
          let u ← req (List.lookup "url" m) "KeyError: url"
          Except.ok (odictInsert acc u m)
        else Except.ok acc) acc =
      Except.ok (acc ++ (l.filter (fun m => teamIn m t)).map
        (fun m => (urlOfD m, m))) := by
  intro l
  induction l with
  | nil =>
    intro acc _ _ _
    simp [List.foldlM_nil]
    rfl
  | cons m rest ih =>
    intro acc hall hnd hfresh
    rw [List.foldlM_cons]
    by_cases hteam : teamIn m t = true
    · have hfc : (m :: rest).filter (fun m => teamIn m t) =
          m :: rest.filter (fun m => teamIn m t) := by
        rw [List.filter_cons, if_pos hteam]
      rw [hfc] at hall hnd hfresh
      have hurl : (List.lookup "url" m).isSome = true := by
        have := List.all_eq_true.mp hall m (List.mem_cons_self _ _)
        simpa using this
      obtain ⟨u, hu⟩ := Option.isSome_iff_exists.mp hurl
      have hud : urlOfD m = u := by
        unfold urlOfD
        rw [hu]
        rfl
      have hstep : (if teamIn m t then do
          let u ← req (List.lookup "url" m) "KeyError: url"
          Except.ok (odictInsert acc u m)
        else Except.ok acc) = Except.ok (acc ++ [(u, m)]) := by
        rw [if_pos hteam, hu]
        show Except.ok (odictInsert acc u m) = Except.ok (acc ++ [(u, m)])
        rw [odictInsert_fresh (by rw [← hud]; exact hfresh m (List.mem_cons_self _ _))]
      rw [hstep]
      show List.foldlM _ (acc ++ [(u, m)]) rest = _
      rw [List.map_cons] at hnd
      unfold jvNodup at hnd
      rw [Bool.and_eq_true, Bool.not_eq_true'] at hnd
      rw [ih (acc ++ [(u, m)])
        (by
          apply List.all_eq_true.mpr
          intro m2 hm2
          exact List.all_eq_true.mp hall m2 (List.mem_cons_of_mem _ hm2))
        hnd.2
        (by
          intro m2 hm2
          rw [List.any_append]
          have h1 : acc.any (fun p => JVal.beq p.1 (urlOfD m2)) = false :=
            hfresh m2 (List.mem_cons_of_mem _ hm2)
          have h2 : ([(u, m)].any (fun p => JVal.beq p.1 (urlOfD m2))) = false := by
            simp only [List.any_cons, List.any_nil, Bool.or_false]
            rw [← hud]
            by_cases hb : JVal.beq (urlOfD m) (urlOfD m2) = true
            · exfalso
              have := List.any_eq_true.mpr
                ⟨urlOfD m2, List.mem_map_of_mem _ hm2, hb⟩
              rw [hnd.1] at this
              cases this
            · simpa using hb
          rw [h1, h2]
          rfl)]
      rw [hfc, List.map_cons, hud]
      rw [List.append_assoc]
      rfl
    · have hteam' : teamIn m t = false := by simpa using hteam
      have hfc : (m :: rest).filter (fun m => teamIn m t) =
          rest.filter (fun m => teamIn m t) := by
        rw [List.filter_cons, if_neg (fun hx => hteam hx)]
      rw [hfc] at hall hnd hfresh
      rw [show (if teamIn m t then do
          let u ← req (List.lookup "url" m) "KeyError: url"
          Except.ok (odictInsert acc u m)
        else Except.ok acc) = Except.ok acc from by rw [if_neg (fun hx => hteam hx)]]
      show List.foldlM _ acc rest = _
      rw [ih acc hall hnd hfresh, hfc]

/-- C6 counterexample: two matches of the same team sharing one `url` value.
The claimed "plain list filtering" would return both, but the function
returns only the later one, because the accumulating dict is keyed by url. -/
theorem filter_team_matches_dedups_counterexample :
    filter_team_matches [wDup1, wDup2] "Barcelona" = Except.ok [wDup2] ∧
    List.filter (fun m => teamIn m "Barcelona") [wDup1, wDup2] = [wDup1, wDup2] ∧
    [wDup2] ≠ [wDup1, wDup2] :=
  ⟨rfl, rfl, fun h => absurd (congrArg List.length h) (by decide)⟩

/-- C6 (amended): `filter_team_matches` raises `ValueError` on an empty match
list, an empty team name, or when no match involves the team; otherwise,
provided every match of the team carries a `url` key and those urls are
pairwise distinct, it returns exactly the input matches whose `home` or
`away` equals the team name, in input order.  (Matches of the team sharing a
`url` are deduplicated, keeping the last.) -/
theorem filter_team_matches_amended :
    (∀ t, filter_team_matches [] t =
      Except.error "ValueError: Empty match URLs provided") ∧
    (∀ murls : List Dict, murls ≠ [] →
      filter_team_matches murls "" =
        Except.error "ValueError: Team name cannot be empty") ∧
    (∀ (murls : List Dict) (t : String), murls ≠ [] → t ≠ "" →
      murls.filter (fun m => teamIn m t) = [] →
      filter_team_matches murls t =
        Except.error ("ValueError: No matches found for team: " ++ t)) ∧
    (∀ (murls : List Dict) (t : String), murls ≠ [] → t ≠ "" →
      (murls.filter (fun m => teamIn m t)).all
        (fun m => (List.lookup "url" m).isSome) = true →
      jvNodup ((murls.filter (fun m => teamIn m t)).map urlOfD) = true →
      murls.filter (fun m => teamIn m t) ≠ [] →
      filter_team_matches murls t =
        Except.ok (murls.filter (fun m => teamIn m t))) := by
  have hempty : ∀ (murls : List Dict), murls ≠ [] → murls.isEmpty = false := by
    intro murls h
    cases murls with
    | nil => exact absurd rfl h
    | cons a l => rfl
  refine ⟨?_, ?_, ?_, ?_⟩
  · intro t
    rfl
  · intro murls h
    unfold filter_team_matches
    rw [if_neg (fun hx => Bool.false_ne_true ((hempty murls h) ▸ hx)),
        if_pos (show (("" : String) == "") = true from rfl)]
  · intro murls t hne ht hfl
    unfold filter_team_matches
    rw [if_neg (fun hx => Bool.false_ne_true ((hempty murls hne) ▸ hx)),
        if_neg (fun hx => ht (by simpa using hx))]
    rw [show (List.foldlM (fun acc m =>
        if teamIn m t then do
          let u ← req (List.lookup "url" m) "KeyError: url"
          Except.ok (odictInsert acc u m)
        else Except.ok acc) [] murls) =
        Except.ok ([] ++ (murls.filter (fun m => teamIn m t)).map
          (fun m => (urlOfD m, m))) from
      team_fold_ok murls [] (by rw [hfl]; rfl) (by rw [hfl]; rfl)
        (by rw [hfl]; intro m hm; cases hm)]
    simp only [Bind.bind, Except.bind, List.nil_append]
    rw [hfl]
    rfl
  · intro murls t hne ht hall hnd hflne
    unfold filter_team_matches
    rw [if_neg (fun hx => Bool.false_ne_true ((hempty murls hne) ▸ hx)),
        if_neg (fun hx => ht (by simpa using hx))]
    rw [show (List.foldlM (fun acc m =>
        if teamIn m t then do
          let u ← req (List.lookup "url" m) "KeyError: url"
          Except.ok (odictInsert acc u m)
        else Except.ok acc) [] murls) =
        Except.ok ([] ++ (murls.filter (fun m => teamIn m t)).map
          (fun m => (urlOfD m, m))) from
      team_fold_ok murls [] hall hnd (fun m _ => rfl)]
    have hlne : ((murls.filter (fun m => teamIn m t)).map
        (fun m => (urlOfD m, m))).isEmpty = false := by
      cases hx : murls.filter (fun m => teamIn m t) with
      | nil => exact absurd hx hflne
      | cons a l => rfl
    simp only [Bind.bind, Except.bind, List.nil_append]
    rw [if_neg (fun hx => Bool.false_ne_true (hlne ▸ hx)), List.map_map]
    show Except.ok ((murls.filter (fun m => teamIn m t)).map (fun m => m)) = _
    rw [List.map_id']

/-- Witness for the amended C6 at two distinct-url matches of one team. -/
theorem filter_team_matches_amended_witness :
    filter_team_matches [wUrl1, wUrl2] "Barcelona" =
      Except.ok (List.filter (fun m => teamIn m "Barcelona") [wUrl1, wUrl2]) :=
  filter_team_matches_amended.2.2.2 [wUrl1, wUrl2] "Barcelona"
    (fun h => absurd (congrArg List.length h) (by decide))
    (fun h => absurd (congrArg String.length h) (by decide))
    rfl rfl
    (fun h => absurd (congrArg List.length h) (by decide))

/-! ### C7: shape of the fixtures built by `fetch_match_overview` -/

theorem foldlM_mem_inv {α β : Type} {f : List β → α → Except String (List β)}
    (P : α → β → Prop)
    (hf : ∀ acc a out, f acc a = Except.ok out → ∀ b ∈ out, b ∈ acc ∨ P a b) :
    ∀ (l : List α) (acc0 out : List β),
      List.foldlM f acc0 l = Except.ok out →
      ∀ b ∈ out, b ∈ acc0 ∨ ∃ a ∈ l, P a b := by
  intro l
  induction l with
  | nil =>
    intro acc0 out h b hb
    simp only [List.foldlM_nil, pure, Except.pure] at h
    cases h
    exact Or.inl hb
  | cons a t ih =>
    intro acc0 out h b hb
    rw [List.foldlM_cons] at h
    obtain ⟨mid, hmid, h2⟩ := exbind_ok h
    rcases ih mid out h2 b hb with hin | ⟨a2, ha2, hp⟩
    · rcases hf acc0 a mid hmid b hin with hin0 | hp
      · exact Or.inl hin0
      · exact Or.inr ⟨a, List.mem_cons_self _ _, hp⟩
    · exact Or.inr ⟨a2, List.mem_cons_of_mem _ ha2, hp⟩

theorem processMatchRow_some {hdr : String} {row : RowDom} {fx : Fixture}
    (h : processMatchRow hdr row = Except.ok (some fx)) :
    ∃ (a : Anchor) (href : String) (teams : List Anchor) (home away : Anchor),
      row.anchors.head? = some a ∧ a.href = some href ∧
      strContainsSub href "Live" = true ∧
      row.teamAnchors = some teams ∧
      teams.get? 0 = some home ∧ teams.get? 1 = some away ∧
      fx = [("date", hdr), ("home", home.text), ("away", away.text),
            ("score", String.intercalate ":" a.spans), ("url", href)] := by
  unfold processMatchRow at h
  obtain ⟨a, ha, h⟩ := exbind_ok h
  obtain ⟨href, hhref, h⟩ := exbind_ok h
  by_cases hlive : strContainsSub href "Live" = true
  · rw [if_pos hlive] at h
    obtain ⟨teams, hteams, h⟩ := exbind_ok h
    obtain ⟨home, hhome, h⟩ := exbind_ok h
    obtain ⟨away, haway, h⟩ := exbind_ok h
    have h2 : Except.ok (some
        [("date", hdr), ("home", home.text), ("away", away.text),
         ("score", String.intercalate ":" a.spans), ("url", href)]) =
        Except.ok (some fx) := h
    simp only [Except.ok.injEq, Option.some.injEq] at h2
    exact ⟨a, href, teams, home, away, req_ok ha, req_ok hhref, hlive,
           req_ok hteams, req_ok hhome, req_ok haway, h2.symm⟩
  · rw [if_neg hlive] at h
    simp at h

theorem processSection_mem {sec : SectionDom} {fxs : List Fixture}
    (h : processSection sec = Except.ok fxs) :
    ∃ hdr, sec.header = some hdr ∧
      ∀ fx ∈ fxs, ∃ row ∈ sec.matchRows,
        processMatchRow hdr row = Except.ok (some fx) := by
  unfold processSection at h
  obtain ⟨hdr, hh, h2⟩ := exbind_ok h
  refine ⟨hdr, req_ok hh, ?_⟩
  intro fx hfx
  have hstep : ∀ (acc : List Fixture) (row : RowDom) (out : List Fixture),
      (do
        let f ← processMatchRow hdr row
        Except.ok (match f with
                   | some fy => acc ++ [fy]
                   | none => acc)) = Except.ok out →
      ∀ b ∈ out, b ∈ acc ∨ processMatchRow hdr row = Except.ok (some b) := by
    intro acc row out hr b hb
    obtain ⟨f0, hf0, hr2⟩ := exbind_ok hr
    cases f0 with
    | none =>
      have hr3 : Except.ok acc = Except.ok out := hr2
      cases hr3
      exact Or.inl hb
    | some fy =>
      have hr3 : Except.ok (acc ++ [fy]) = Except.ok out := hr2
      cases hr3
      rcases List.mem_append.mp hb with hin | hone
      · exact Or.inl hin
      · rw [List.mem_singleton] at hone
        exact Or.inr (hone ▸ hf0)
  rcases foldlM_mem_inv
      (fun row b => processMatchRow hdr row = Except.ok (some b))
      hstep sec.matchRows [] fxs h2 fx hfx with hin | ⟨row, hrow, hp⟩
  · cases hin
  · exact ⟨row, hrow, hp⟩

/-- C7: every fixture dictionary produced by `fetch_match_overview` has exactly
the keys `date`, `home`, `away`, `score` and `url`, in that order, holding the
section header date string, the two team-anchor texts, the score spans of the
match link joined with `:`, and the match link URL (which contains `Live`). -/
theorem fetch_match_overview_fixture_shape {pages : List (List SectionDom)}
    {fxs : List Fixture} (h : fetch_match_overview pages = Except.ok fxs) :
    ∀ fx ∈ fxs,
      fx.map Prod.fst = ["date", "home", "away", "score", "url"] ∧
      ∃ (page : List SectionDom) (sec : SectionDom) (hdr : String)
        (row : RowDom) (a : Anchor) (teams : List Anchor)
        (home away : Anchor) (href : String),
        page ∈ pages ∧ sec ∈ page ∧ sec.header = some hdr ∧
        row ∈ sec.matchRows ∧ row.anchors.head? = some a ∧
        a.href = some href ∧ strContainsSub href "Live" = true ∧
        row.teamAnchors = some teams ∧
        teams.get? 0 = some home ∧ teams.get? 1 = some away ∧
        fx = [("date", hdr), ("home", home.text), ("away", away.text),
              ("score", String.intercalate ":" a.spans), ("url", href)] := by
  intro fx hfx
  unfold fetch_match_overview at h
  have hinner : ∀ (acc : List Fixture) (sec : SectionDom) (out : List Fixture),
      (do
        let fs ← processSection sec
        Except.ok (acc ++ fs)) = Except.ok out →
      ∀ b ∈ out, b ∈ acc ∨
        ∃ fl, processSection sec = Except.ok fl ∧ b ∈ fl := by
    intro acc sec out hr b hb
    obtain ⟨fs, hfs, hr2⟩ := exbind_ok hr
    have hr3 : Except.ok (acc ++ fs) = Except.ok out := hr2
    cases hr3
    rcases List.mem_append.mp hb with hin | hinf
    · exact Or.inl hin
    · exact Or.inr ⟨fs, hfs, hinf⟩
  have houter : ∀ (acc : List Fixture) (page : List SectionDom)
      (out : List Fixture),
      List.foldlM (fun acc2 sec => do
        let fs ← processSection sec
        Except.ok (acc2 ++ fs)) acc page = Except.ok out →
      ∀ b ∈ out, b ∈ acc ∨
        ∃ sec ∈ page, ∃ fl, processSection sec = Except.ok fl ∧ b ∈ fl := by
    intro acc page out hr b hb
    exact foldlM_mem_inv
      (fun sec b => ∃ fl, processSection sec = Except.ok fl ∧ b ∈ fl)
      hinner page acc out hr b hb
  rcases foldlM_mem_inv
      (fun page b => ∃ sec ∈ page, ∃ fl,
        processSection sec = Except.ok fl ∧ b ∈ fl)
      houter pages [] fxs h fx hfx with hin | hrest
  · cases hin
  obtain ⟨page, hpage, sec, hsec, fl, hfl, hmem⟩ := hrest
  obtain ⟨hdr, hhdr, hrows⟩ := processSection_mem hfl
  obtain ⟨row, hrow, hpm⟩ := hrows fx hmem
  obtain ⟨a, href, teams, home, away, ha, bhref, hlive, hteams, h0, h1, hfxeq⟩ :=
    processMatchRow_some hpm
  subst hfxeq
  exact ⟨rfl, page, sec, hdr, row, a, teams, home, away, href,
         hpage, hsec, hhdr, hrow, ha, bhref, hlive, hteams, h0, h1, rfl⟩

/-- Witness for C7: the single fixture scraped from `wPages` has exactly the
five fixture keys. -/
theorem fetch_match_overview_fixture_shape_witness :
    wFx.map Prod.fst = ["date", "home", "away", "score", "url"] :=
  (@fetch_match_overview_fixture_shape wPages [wFx] rfl wFx
    (List.mem_singleton.mpr rfl)).1

/-! ### C2: `extract_match_details` -/

theorem lookup_isSome_of_key_mem {e : Dict} {k : String}
    (h : k ∈ e.map Prod.fst) : (List.lookup k e).isSome = true := by
  induction e with
  | nil => cases h
  | cons p t ih =>
    obtain ⟨pk, pv⟩ := p
    by_cases hk : k = pk
    · subst hk
      rw [lookup_cons_self]
      rfl
    · rw [lookup_cons_ne hk]
      apply ih
      simp only [List.map_cons, List.mem_cons] at h
      rcases h with h1 | h2
      · exact absurd h1 hk
      · exact h2

theorem map_obj_all : ∀ (ms : List Dict), (ms.map JVal.obj).all isObjB = true := by
  intro ms
  induction ms with
  | nil => rfl
  | cons a t ih =>
    rw [List.map_cons, List.all_cons, ih]
    rfl

theorem map_obj_unwrap : ∀ (ms : List Dict), (ms.map JVal.obj).map unObj = ms := by
  intro ms
  induction ms with
  | nil => rfl
  | cons a t ih =>
    rw [List.map_cons, List.map_cons, ih]
    rfl

theorem validateMatchData_obj (m : Dict) (hm : m ≠ []) :
    validateMatchData (JVal.obj m) = Except.ok [m] := by
  unfold validateMatchData
  rw [if_neg (by
    intro hx
    cases m with
    | nil => exact hm rfl
    | cons a t => exact Bool.false_ne_true hx)]

theorem validateMatchData_arr_objs (ms : List Dict) (hne : ms ≠ []) :
    validateMatchData (JVal.arr (ms.map JVal.obj)) = Except.ok ms := by
  cases ms with
  | nil => exact absurd rfl hne
  | cons a t =>
    show validateMatchData (JVal.arr (JVal.obj a :: t.map JVal.obj)) = _
    unfold validateMatchData
    rw [if_neg (show
      ¬(jFalsy (JVal.arr (JVal.obj a :: List.map JVal.obj t)) = true) from
      fun hx => Bool.false_ne_true hx)]
    show (if ((JVal.obj a :: t.map JVal.obj).all isObjB) = true then
            Except.ok ((JVal.obj a :: t.map JVal.obj).map unObj)
          else Except.error "ValueError: All elements must be dictionaries") =
        Except.ok (a :: t)
    rw [if_pos (show ((JVal.obj a :: t.map JVal.obj).all isObjB) = true from
      map_obj_all (a :: t))]
    exact congrArg Except.ok (map_obj_unwrap (a :: t))

theorem emdCell {ms : List Dict} {key label : String}
    (h2 : renameBack MATCH_COLUMNS label = key)
    (h1 : (["Stadium Attendance", "Stadium Name", "Kickoff Time", "Match Date",
            "Final Score", "Home Team", "Away Team",
            "Match Referee"] : List String).contains label = true) :
    getCol
      { cols := ["Stadium Attendance", "Stadium Name", "Kickoff Time",
                 "Match Date", "Final Score", "Home Team", "Away Team",
                 "Match Referee"],
        rows := (ms.map (fun m => fun c => (List.lookup c m).getD JVal.null)).map
          (fun r => fun c => r (renameBack MATCH_COLUMNS c)) } label =
      some (ms.map (fun m => (List.lookup key m).getD JVal.null)) := by
  subst h2
  rw [getCol_mk, if_pos h1, List.map_map, List.map_map]
  rfl

/-- C2 counterexample: the `referee` key is one of the nine required match
columns and is missing from the second match dictionary, yet
`extract_match_details` on the two-match list succeeds instead of raising
`ValueError` (pandas only raises the `KeyError` when a key is absent from
every dictionary). -/
theorem extract_match_details_missing_key_counterexample :
    List.lookup "referee" wMatch2 = none ∧
    "referee" ∈ MATCH_COLUMNS.map Prod.fst ∧
    exIsErr (extract_match_details
      (JVal.arr [JVal.obj wMatch1, JVal.obj wMatch2])) = false :=
  ⟨rfl, by decide, rfl⟩

/-- C2 (amended): a single dictionary is treated as a one-element list; a
`ValueError` is raised when one of the nine keys is missing from **every**
match dictionary (a key missing from only some of the dictionaries does not
raise); and on a non-empty list of dictionaries that each carry all nine keys
the result is indexed by the `matchId` values under the index name
`Match Identifier`, with exactly the eight display-label columns in order and
each cell equal to the value of the corresponding input key. -/
theorem extract_match_details_amended :
    (∀ (m : Dict), m ≠ [] →
      extract_match_details (JVal.obj m) =
        extract_match_details (JVal.arr [JVal.obj m])) ∧
    (∀ (ms : List Dict) (k : String), ms ≠ [] →
      k ∈ MATCH_COLUMNS.map Prod.fst →
      (∀ m ∈ ms, List.lookup k m = none) →
      exIsErr (extract_match_details (JVal.arr (ms.map JVal.obj))) = true) ∧
    (∀ (ms : List Dict), ms ≠ [] →
      ms.all (fun m => (MATCH_COLUMNS.map Prod.fst).all
        (fun k => (List.lookup k m).isSome)) = true →
      ∃ o, extract_match_details (JVal.arr (ms.map JVal.obj)) = Except.ok o ∧
        o.idxName = "Match Identifier" ∧
        o.idxVals = ms.map (fun m => (List.lookup "matchId" m).getD JVal.null) ∧
        o.table.cols = ["Stadium Attendance", "Stadium Name", "Kickoff Time",
                        "Match Date", "Final Score", "Home Team", "Away Team",
                        "Match Referee"] ∧
        ∀ p ∈ MATCH_COLUMNS, p.1 ≠ "matchId" →
          getCol o.table p.2 =
            some (ms.map (fun m => (List.lookup p.1 m).getD JVal.null))) := by
  refine ⟨?_, ?_, ?_⟩
  · intro m hm
    unfold extract_match_details
    rw [validateMatchData_obj m hm,
        show validateMatchData (JVal.arr [JVal.obj m]) = Except.ok [m] from
          validateMatchData_arr_objs [m] (by simp)]
  · intro ms k hne hkmem hnone
    have hcf : (unionKeys ms).contains k = false := by
      cases hb : (unionKeys ms).contains k with
      | false => rfl
      | true =>
        obtain ⟨e, he, hke⟩ := unionKeys_contains_to hb
        have hs := lookup_isSome_of_key_mem hke
        rw [hnone e he] at hs
        cases hs
    have hsel : selectCols (pdDF ms) (MATCH_COLUMNS.map Prod.fst) =
        Except.error "ValueError: Required match column missing" := by
      unfold selectCols
      rw [if_neg (by
        intro hc
        have h2 : (unionKeys ms).contains k = true :=
          List.all_eq_true.mp hc k hkmem
        rw [h2] at hcf
        cases hcf)]
    have herr : extract_match_details (JVal.arr (ms.map JVal.obj)) =
        Except.error "ValueError: Required match column missing" := by
      unfold extract_match_details
      rw [validateMatchData_arr_objs ms hne]
      show (selectCols (pdDF ms) (MATCH_COLUMNS.map Prod.fst) >>= fun sel =>
        setIndex (renameCols sel MATCH_COLUMNS) "Match Identifier") = _
      rw [hsel]
      rfl
    rw [herr]
    rfl
  · intro ms hne hkeys
    have hcond : ((MATCH_COLUMNS.map Prod.fst).all
        (fun k => (pdDF ms).cols.contains k)) = true := by
      rw [List.all_eq_true]
      intro k hk
      cases ms with
      | nil => exact absurd rfl hne
      | cons m0 t =>
        have h0 := List.all_eq_true.mp hkeys m0 (List.mem_cons_self _ _)
        have h1 := List.all_eq_true.mp h0 k hk
        exact unionKeys_contains_of (List.mem_cons_self _ _)
          (lookup_isSome_key (by simpa using h1))
    have hsel : selectCols (pdDF ms) (MATCH_COLUMNS.map Prod.fst) =
        Except.ok { cols := MATCH_COLUMNS.map Prod.fst,
                    rows := (pdDF ms).rows } := by
      unfold selectCols
      rw [if_pos hcond]
    have hmain : extract_match_details (JVal.arr (ms.map JVal.obj)) =
        Except.ok
          { idxName := "Match Identifier",
            idxVals := ((ms.map (fun m => fun c =>
                (List.lookup c m).getD JVal.null)).map
              (fun r => fun c => r (renameBack MATCH_COLUMNS c))).map
                (fun r => r "Match Identifier"),
            table := { cols := ["Stadium Attendance", "Stadium Name",
                                "Kickoff Time", "Match Date", "Final Score",
                                "Home Team", "Away Team", "Match Referee"],
                       rows := (ms.map (fun m => fun c =>
                           (List.lookup c m).getD JVal.null)).map
                         (fun r => fun c => r (renameBack MATCH_COLUMNS c)) } } := by
      unfold extract_match_details
      rw [validateMatchData_arr_objs ms hne]
      show (selectCols (pdDF ms) (MATCH_COLUMNS.map Prod.fst) >>= fun sel =>
        setIndex (renameCols sel MATCH_COLUMNS) "Match Identifier") = _
      rw [hsel]
      rfl
    refine ⟨_, hmain, rfl, ?_, rfl, ?_⟩
    · show ((ms.map (fun m => fun c => (List.lookup c m).getD JVal.null)).map
          (fun r => fun c => r (renameBack MATCH_COLUMNS c))).map
            (fun r => r "Match Identifier") = _
      rw [List.map_map, List.map_map]
      rfl
    · intro p hp hp1
      unfold MATCH_COLUMNS at hp
      simp only [List.mem_cons, List.not_mem_nil, or_false] at hp
      rcases hp with rfl | rfl | rfl | rfl | rfl | rfl | rfl | rfl | rfl
      · exact absurd rfl hp1
      · exact emdCell rfl rfl
      · exact emdCell rfl rfl
      · exact emdCell rfl rfl
      · exact emdCell rfl rfl
      · exact emdCell rfl rfl
      · exact emdCell rfl rfl
      · exact emdCell rfl rfl
      · exact emdCell rfl rfl

/-- Witness for the amended C2 at a one-match list carrying all nine keys. -/
theorem extract_match_details_amended_witness :
    ∃ o, extract_match_details (JVal.arr ([wMatch1].map JVal.obj)) =
        Except.ok o ∧
      o.idxName = "Match Identifier" ∧
      o.idxVals = [wMatch1].map (fun m => (List.lookup "matchId" m).getD JVal.null) ∧
      o.table.cols = ["Stadium Attendance", "Stadium Name", "Kickoff Time",
                      "Match Date", "Final Score", "Home Team", "Away Team",
                      "Match Referee"] ∧
      ∀ p ∈ MATCH_COLUMNS, p.1 ≠ "matchId" →
        getCol o.table p.2 =
          some ([wMatch1].map (fun m => (List.lookup p.1 m).getD JVal.null)) :=
  extract_match_details_amended.2.2 [wMatch1]
    (fun h => absurd (congrArg List.length h) (by decide)) rfl

/-! ### C8/C9: `standardize_date` word and heap lemmas -/

theorem splitW_ne_nil : ∀ (cs : List Char), splitW cs ≠ [] := by
  intro cs
  cases cs with
  | nil => exact fun h => List.noConfusion h
  | cons c cs2 =>
    by_cases hw : c.isWhitespace = true
    · simp [splitW, hw]
    · simp [splitW, hw]

theorem splitW_chars :
    ∀ (cs : List Char), ∀ w ∈ splitW cs, ∀ c ∈ w,
      c ∈ cs ∧ c.isWhitespace = false := by
  intro cs
  induction cs with
  | nil =>
    intro w hw c hc
    simp [splitW] at hw
    subst hw
    cases hc
  | cons a t ih =>
    intro w hw c hc
    by_cases ha : a.isWhitespace = true
    · rw [show splitW (a :: t) = [] :: splitW t from by simp [splitW, ha]] at hw
      rcases List.mem_cons.mp hw with rfl | hw2
      · cases hc
      · obtain ⟨h1, h2⟩ := ih w hw2 c hc
        exact ⟨List.mem_cons_of_mem _ h1, h2⟩
    · rw [show splitW (a :: t) = (a :: (splitW t).headD []) :: (splitW t).tail
          from by simp [splitW, ha]] at hw
      rcases List.mem_cons.mp hw with rfl | hw2
      · rcases List.mem_cons.mp hc with rfl | hc2
        · exact ⟨List.mem_cons_self _ _, Bool.eq_false_iff.mpr ha⟩
        · cases hsp : splitW t with
          | nil => exact absurd hsp (splitW_ne_nil t)
          | cons w0 ws =>
            rw [hsp] at hc2
            obtain ⟨h1, h2⟩ :=
              ih w0 (by rw [hsp]; exact List.mem_cons_self _ _) c hc2
            exact ⟨List.mem_cons_of_mem _ h1, h2⟩
      · obtain ⟨h1, h2⟩ := ih w (List.mem_of_mem_tail hw2) c hc
        exact ⟨List.mem_cons_of_mem _ h1, h2⟩

theorem splitW_append_word :
    ∀ (w rest : List Char), (∀ c ∈ w, c.isWhitespace = false) →
      splitW (w ++ rest) =
        (w ++ (splitW rest).headD []) :: (splitW rest).tail := by
  intro w
  induction w with
  | nil =>
    intro rest _
    show splitW rest = ([] ++ (splitW rest).headD []) :: (splitW rest).tail
    rw [List.nil_append]
    cases hsp : splitW rest with
    | nil => exact absurd hsp (splitW_ne_nil rest)
    | cons w0 ws => rfl
  | cons a w2 ih =>
    intro rest hnw
    have ha : a.isWhitespace = false := hnw a (List.mem_cons_self _ _)
    show splitW (a :: (w2 ++ rest)) = _
    rw [show splitW (a :: (w2 ++ rest)) =
        (a :: (splitW (w2 ++ rest)).headD []) :: (splitW (w2 ++ rest)).tail
      from by simp [splitW, ha]]
    rw [ih rest (fun c hc => hnw c (List.mem_cons_of_mem _ hc))]
    rfl

theorem splitW_space (rest : List Char) :
    splitW (' ' :: rest) = [] :: splitW rest := rfl

theorem splitW_word_space (w X : List Char)
    (h : ∀ c ∈ w, c.isWhitespace = false) :
    splitW (w ++ ' ' :: X) = w :: splitW X := by
  rw [splitW_append_word w _ h, splitW_space]
  show (w ++ ([] : List Char)) :: splitW X = w :: splitW X
  rw [List.append_nil]

theorem splitW_word (w : List Char) (h : ∀ c ∈ w, c.isWhitespace = false) :
    splitW w = [w] := by
  have h2 := splitW_append_word w [] h
  rw [List.append_nil] at h2
  rw [h2]
  show [w ++ ([] : List Char)] = [w]
  rw [List.append_nil]

theorem splitW_three_words {w1 w2 w3 : List Char}
    (h1 : ∀ c ∈ w1, c.isWhitespace = false)
    (h2 : ∀ c ∈ w2, c.isWhitespace = false)
    (h3 : ∀ c ∈ w3, c.isWhitespace = false) :
    splitW (w1 ++ ' ' :: (w2 ++ ' ' :: w3)) = [w1, w2, w3] := by
  rw [splitW_word_space w1 _ h1, splitW_word_space w2 _ h2, splitW_word w3 h3]

theorem toList_ne_nil {s : String} (h : s ≠ "") : s.toList ≠ [] := by
  intro hx
  apply h
  cases s with
  | mk data =>
    have h2 : data = [] := hx
    rw [h2]

theorem isEmpty_false_of_ne_nil {α : Type} {l : List α} (h : l ≠ []) :
    l.isEmpty = false := by
  cases l with
  | nil => exact absurd rfl h
  | cons a t => rfl

theorem pySplit_words {s : String} :
    ∀ w ∈ pySplit s, w.toList ≠ [] ∧
      ∀ c ∈ w.toList, c ∈ s.toList ∧ c.isWhitespace = false := by
  intro w hw
  unfold pySplit at hw
  obtain ⟨wl, hwl, hmk⟩ := List.mem_map.mp hw
  obtain ⟨hmem, hne⟩ := List.mem_filter.mp hwl
  subst hmk
  refine ⟨?_, ?_⟩
  · intro hx
    have h2 : wl = [] := hx
    subst h2
    cases hne
  · intro c hc
    exact splitW_chars s.toList wl hmem c hc

theorem lookup_mem_values {l : List (String × String)} {k v : String}
    (h : List.lookup k l = some v) : v ∈ l.map Prod.snd := by
  induction l with
  | nil => cases h
  | cons p t ih =>
    obtain ⟨pk, pv⟩ := p
    rw [List.lookup] at h
    cases hbe : (k == pk) with
    | true =>
      simp only [hbe] at h
      cases h
      simp
    | false =>
      simp only [hbe] at h
      simp [ih h]

theorem month_values_fixed :
    ∀ M ∈ MONTH_MAPPINGS.map Prod.snd,
      List.lookup M MONTH_MAPPINGS = some M ∧
      (M.toList.contains '?') = false ∧
      (∀ c ∈ M.toList, c.isWhitespace = false) ∧ M ≠ "" := by
  decide

theorem getD_mem {α : Type} : ∀ (l : List α) (i : Nat) (d : α),
    i < l.length → l.getD i d ∈ l := by
  intro l
  induction l with
  | nil => intro i d h; cases h
  | cons a t ih =>
    intro i d h
    cases i with
    | zero => exact List.mem_cons_self _ _
    | succ j => exact List.mem_cons_of_mem _ (ih j d (Nat.lt_of_succ_lt_succ h))

theorem getD_set_ne : ∀ (l : Store) (r i : Nat) (v : Dict), i ≠ r →
    (l.set r v).getD i [] = l.getD i [] := by
  intro l
  induction l with
  | nil => intro r i v _; rfl
  | cons a t ih =>
    intro r i v h
    cases r with
    | zero =>
      cases i with
      | zero => exact absurd rfl h
      | succ j => rfl
    | succ rr =>
      cases i with
      | zero => rfl
      | succ j =>
        show (t.set rr v).getD j [] = t.getD j []
        exact ih rr j v (fun hx => h (congrArg Nat.succ hx))

theorem getD_set_self : ∀ (l : Store) (r : Nat) (v : Dict), r < l.length →
    (l.set r v).getD r [] = v := by
  intro l
  induction l with
  | nil => intro r v h; cases h
  | cons a t ih =>
    intro r v h
    cases r with
    | zero => rfl
    | succ j => exact ih j v (Nat.lt_of_succ_lt_succ h)

theorem set_getD_self : ∀ (l : Store) (r : Nat), r < l.length →
    l.set r (l.getD r []) = l := by
  intro l
  induction l with
  | nil => intro r h; cases h
  | cons a t ih =>
    intro r h
    cases r with
    | zero => rfl
    | succ j =>
      show a :: t.set j (t.getD j []) = a :: t
      rw [ih j (Nat.lt_of_succ_lt_succ h)]

theorem getD_default_of_le : ∀ (l : Store) (r : Nat), l.length ≤ r →
    l.getD r [] = [] := by
  intro l
  induction l with
  | nil => intro r _; rfl
  | cons a t ih =>
    intro r h
    cases r with
    | zero => cases h
    | succ j => exact ih j (Nat.le_of_succ_le_succ h)

theorem stdDateStr_some {s std : String} (h : stdDateStr s = some std) :
    ∃ M, List.lookup ((pySplit s).getD 0 "") MONTH_MAPPINGS = some M ∧
      s.toList.contains '?' = false ∧
      ¬((pySplit s).length < 3) ∧
      std = M ++ " " ++ (pySplit s).getD 1 "" ++ " " ++ (pySplit s).getD 2 "" := by
  unfold stdDateStr at h
  by_cases hq : (s.toList.contains '?') = true
  · rw [if_pos hq] at h
    cases h
  · rw [if_neg hq] at h
    dsimp only at h
    by_cases hlen : (pySplit s).length < 3
    · rw [if_pos hlen] at h
      cases h
    · rw [if_neg hlen] at h
      cases hlk : List.lookup ((pySplit s).getD 0 "") MONTH_MAPPINGS with
      | none =>
        rw [hlk] at h
        cases h
      | some M =>
        rw [hlk] at h
        have h2 : some (M ++ " " ++ (pySplit s).getD 1 "" ++ " " ++
            (pySplit s).getD 2 "") = some std := h
        have h3 : M ++ " " ++ (pySplit s).getD 1 "" ++ " " ++
            (pySplit s).getD 2 "" = std := by
          injection h2
        exact ⟨M, rfl, Bool.eq_false_iff.mpr hq, hlen, h3.symm⟩

theorem filter_map_three (w1 w2 w3 : List Char)
    (n1 : w1 ≠ []) (n2 : w2 ≠ []) (n3 : w3 ≠ []) :
    (List.filter (fun w => !w.isEmpty) [w1, w2, w3]).map
      (fun w => String.mk w) = [String.mk w1, String.mk w2, String.mk w3] := by
  cases w1 with
  | nil => exact absurd rfl n1
  | cons a1 t1 =>
    cases w2 with
    | nil => exact absurd rfl n2
    | cons a2 t2 =>
      cases w3 with
      | nil => exact absurd rfl n3
      | cons a3 t3 => rfl

theorem stdDateStr_fixed {s std : String} (h : stdDateStr s = some std) :
    stdDateStr std = some std := by
  obtain ⟨M, hlk, hq, hlen, rfl⟩ := stdDateStr_some h
  obtain ⟨hMlk, hMq, hMw, hMne⟩ :=
    month_values_fixed M (lookup_mem_values hlk)
  have hm1 : (pySplit s).getD 1 "" ∈ pySplit s := getD_mem _ 1 _ (by omega)
  have hm2 : (pySplit s).getD 2 "" ∈ pySplit s := getD_mem _ 2 _ (by omega)
  obtain ⟨hn1, hw1⟩ := pySplit_words _ hm1
  obtain ⟨hn2, hw2⟩ := pySplit_words _ hm2
  have htl : (M ++ " " ++ (pySplit s).getD 1 "" ++ " " ++
      (pySplit s).getD 2 "").toList =
      M.toList ++ ' ' :: (((pySplit s).getD 1 "").toList ++
        ' ' :: ((pySplit s).getD 2 "").toList) := by
    show (((M.toList ++ [' ']) ++ ((pySplit s).getD 1 "").toList) ++ [' ']) ++
        ((pySplit s).getD 2 "").toList = _
    simp [List.append_assoc]
  have hsplit : pySplit (M ++ " " ++ (pySplit s).getD 1 "" ++ " " ++
      (pySplit s).getD 2 "") =
      [M, (pySplit s).getD 1 "", (pySplit s).getD 2 ""] := by
    show ((splitW ((M ++ " " ++ (pySplit s).getD 1 "" ++ " " ++
        (pySplit s).getD 2 "").toList)).filter (fun w => !w.isEmpty)).map
        (fun w => String.mk w) = _
    rw [htl]
    rw [splitW_word_space _ _ hMw,
        splitW_word_space _ _ (fun c hc => (hw1 c hc).2),
        splitW_word _ (fun c hc => (hw2 c hc).2)]
    exact filter_map_three _ _ _ (toList_ne_nil hMne) hn1 hn2
  have hstdq : ((M ++ " " ++ (pySplit s).getD 1 "" ++ " " ++
      (pySplit s).getD 2 "").toList).contains '?' = false := by
    rw [htl, contains_false_iff]
    intro hmem
    rw [List.mem_append] at hmem
    rcases hmem with hM | hrest
    · exact (contains_false_iff.mp hMq) hM
    · rcases List.mem_cons.mp hrest with hsp | hrest2
      · exact absurd hsp (by decide)
      · rcases List.mem_append.mp hrest2 with h1 | hrest3
        · exact (contains_false_iff.mp hq) ((hw1 _ h1).1)
        · rcases List.mem_cons.mp hrest3 with hsp | h2
          · exact absurd hsp (by decide)
          · exact (contains_false_iff.mp hq) ((hw2 _ h2).1)
  unfold stdDateStr
  rw [if_neg (fun hx => Bool.false_ne_true (hstdq ▸ hx))]
  dsimp only
  rw [if_neg (show ¬((pySplit (M ++ " " ++ (pySplit s).getD 1 "" ++ " " ++
      (pySplit s).getD 2 "")).length < 3) from by
    rw [hsplit]
    intro hx
    exact Nat.lt_irrefl 3 hx)]
  rw [hsplit]
  rw [show List.lookup (([M, (pySplit s).getD 1 "",
      (pySplit s).getD 2 ""] : List String).getD 0 "") MONTH_MAPPINGS =
      some M from hMlk]
  rfl

theorem stdProcess_some {d d' : Dict}
    (h : stdProcess d = Except.ok (some d')) :
    ∃ std, stdDateStr (dateStrD d) = some std ∧
      d' = dictSet d "date" (JVal.str std) := by
  unfold stdProcess at h
  cases hlk : List.lookup "date" d with
  | none =>
    rw [hlk] at h
    have h2 : (Except.ok ((stdDateStr "").map
        (fun std => dictSet d "date" (JVal.str std))) :
        Except String (Option Dict)) = Except.ok (some d') := h
    have h3 : (none : Option Dict) = some d' := by injection h2
    cases h3
  | some v =>
    rw [hlk] at h
    cases v with
    | str s =>
      have h2 : Except.ok ((stdDateStr s).map
          (fun std => dictSet d "date" (JVal.str std))) =
          Except.ok (some d') := h
      cases hsd : stdDateStr s with
      | none =>
        rw [hsd] at h2
        have h3 : (none : Option Dict) = some d' := by injection h2
        cases h3
      | some std =>
        rw [hsd] at h2
        have h3 : some (dictSet d "date" (JVal.str std)) = some d' := by
          injection h2
        have h4 : dictSet d "date" (JVal.str std) = d' := by injection h3
        refine ⟨std, ?_, h4.symm⟩
        rw [show dateStrD d = s from by unfold dateStrD; rw [hlk]]
        exact hsd
    | null =>
      have h2 : (Except.error "TypeError: argument is not iterable" :
          Except String (Option Dict)) = Except.ok (some d') := h
      cases h2
    | bool b =>
      have h2 : (Except.error "TypeError: argument is not iterable" :
          Except String (Option Dict)) = Except.ok (some d') := h
      cases h2
    | int n =>
      have h2 : (Except.error "TypeError: argument is not iterable" :
          Except String (Option Dict)) = Except.ok (some d') := h
      cases h2
    | obj fs =>
      have h2 : (Except.error "TypeError: argument is not iterable" :
          Except String (Option Dict)) = Except.ok (some d') := h
      cases h2
    | arr xs =>
      have h2 : (Except.error "TypeError: argument is not iterable" :
          Except String (Option Dict)) = Except.ok (some d') := h
      cases h2

theorem stdProcess_fixed {d d' : Dict}
    (h : stdProcess d = Except.ok (some d')) :
    stdProcess d' = Except.ok (some d') := by
  obtain ⟨std, hsd, rfl⟩ := stdProcess_some h
  unfold stdProcess
  rw [lookup_dictSet_self]
  show Except.ok ((stdDateStr std).map
    (fun s2 => dictSet (dictSet d "date" (JVal.str std)) "date"
      (JVal.str s2))) = _
  rw [stdDateStr_fixed hsd]
  show Except.ok (some (dictSet (dictSet d "date" (JVal.str std)) "date"
    (JVal.str std))) = _
  rw [dictSet_dictSet_self]

theorem stdLoop_master :
    ∀ (refs : List Nat) (store store' : Store) (ret : List Nat),
    stdLoop store refs = Except.ok (store', ret) →
    ret.Sublist refs ∧
    store'.length = store.length ∧
    (∀ i, i ∉ ret → store'.getD i [] = store.getD i []) ∧
    (∀ r ∈ ret, r < store'.length ∧
      stdProcess (store'.getD r []) =
        Except.ok (some (store'.getD r []))) := by
  intro refs
  induction refs with
  | nil =>
    intro store store' ret h
    have h2 : (Except.ok (store, ([] : List Nat)) :
        Except String (Store × List Nat)) = Except.ok (store', ret) := h
    simp only [Except.ok.injEq, Prod.mk.injEq] at h2
    obtain ⟨h3, h4⟩ := h2
    subst h3
    subst h4
    exact ⟨List.nil_sublist _, rfl, fun i _ => rfl,
      fun r hr => absurd hr (List.not_mem_nil r)⟩
  | cons r rs ih =>
    intro store store' ret h
    rw [show stdLoop store (r :: rs) =
        (stdProcess (store.getD r []) >>= fun o =>
          match o with
          | none => stdLoop store rs
          | some d' => (stdLoop (store.set r d') rs >>= fun p =>
              Except.ok (p.1, r :: p.2))) from rfl] at h
    obtain ⟨o, ho, h2⟩ := exbind_ok h
    cases o with
    | none =>
      have h3 : stdLoop store rs = Except.ok (store', ret) := h2
      obtain ⟨c1, c2, c3, c4⟩ := ih store store' ret h3
      exact ⟨List.Sublist.cons r c1, c2, c3, c4⟩
    | some d' =>
      have hr : r < store.length := by
        by_cases hx : r < store.length
        · exact hx
        · exfalso
          rw [getD_default_of_le store r (Nat.le_of_not_lt hx)] at ho
          have h4 : (Except.ok (none : Option Dict) :
              Except String (Option Dict)) = Except.ok (some d') := ho
          have h5 : (none : Option Dict) = some d' := by injection h4
          cases h5
      obtain ⟨p, hp, h3⟩ := exbind_ok h2
      obtain ⟨s2, ret2⟩ := p
      have h4 : (Except.ok (s2, r :: ret2) :
          Except String (Store × List Nat)) = Except.ok (store', ret) := h3
      simp only [Except.ok.injEq, Prod.mk.injEq] at h4
      obtain ⟨h5, h6⟩ := h4
      subst h5
      subst h6
      obtain ⟨c1, c2, c3, c4⟩ := ih (store.set r d') s2 ret2 hp
      refine ⟨List.Sublist.cons₂ r c1, ?_, ?_, ?_⟩
      · rw [c2, List.length_set]
      · intro i hi
        have hir : i ≠ r := fun hx => hi (hx ▸ List.mem_cons_self _ _)
        have hi2 : i ∉ ret2 := fun hx => hi (List.mem_cons_of_mem _ hx)
        rw [c3 i hi2, getD_set_ne store r i d' hir]
      · intro r2 hr2
        rcases List.mem_cons.mp hr2 with rfl | hmem
        · by_cases hrr : r2 ∈ ret2
          · exact c4 r2 hrr
          · have he : s2.getD r2 [] = d' := by
              rw [c3 r2 hrr, getD_set_self store r2 d' hr]
            rw [he]
            refine ⟨?_, stdProcess_fixed ho⟩
            rw [c2, List.length_set]
            exact hr
        · exact c4 r2 hmem

theorem stdLoop_mut :
    ∀ (refs : List Nat) (store store' : Store) (ret : List Nat),
    refs.Nodup →
    stdLoop store refs = Except.ok (store', ret) →
    (∀ r ∈ ret, ∀ k, k ≠ "date" →
      List.lookup k (store'.getD r []) = List.lookup k (store.getD r [])) ∧
    (∀ r ∈ ret, List.lookup "date" (store'.getD r []) =
      (stdDateStr (dateStrD (store.getD r []))).map JVal.str) := by
  intro refs
  induction refs with
  | nil =>
    intro store store' ret _ h
    have h2 : (Except.ok (store, ([] : List Nat)) :
        Except String (Store × List Nat)) = Except.ok (store', ret) := h
    simp only [Except.ok.injEq, Prod.mk.injEq] at h2
    obtain ⟨h3, h4⟩ := h2
    subst h3
    subst h4
    exact ⟨fun r hr => absurd hr (List.not_mem_nil r),
      fun r hr => absurd hr (List.not_mem_nil r)⟩
  | cons r rs ih =>
    intro store store' ret hnd h
    have hnd2 : rs.Nodup := (List.nodup_cons.mp hnd).2
    have hnr : r ∉ rs := (List.nodup_cons.mp hnd).1
    rw [show stdLoop store (r :: rs) =
        (stdProcess (store.getD r []) >>= fun o =>
          match o with
          | none => stdLoop store rs
          | some d' => (stdLoop (store.set r d') rs >>= fun p =>
              Except.ok (p.1, r :: p.2))) from rfl] at h
    obtain ⟨o, ho, h2⟩ := exbind_ok h
    cases o with
    | none =>
      have h3 : stdLoop store rs = Except.ok (store', ret) := h2
      exact ih store store' ret hnd2 h3
    | some d' =>
      have hr : r < store.length := by
        by_cases hx : r < store.length
        · exact hx
        · exfalso
          rw [getD_default_of_le store r (Nat.le_of_not_lt hx)] at ho
          have h4 : (Except.ok (none : Option Dict) :
              Except String (Option Dict)) = Except.ok (some d') := ho
          have h5 : (none : Option Dict) = some d' := by injection h4
          cases h5
      obtain ⟨p, hp, h3⟩ := exbind_ok h2
      obtain ⟨s2, ret2⟩ := p
      have h4 : (Except.ok (s2, r :: ret2) :
          Except String (Store × List Nat)) = Except.ok (store', ret) := h3
      simp only [Except.ok.injEq, Prod.mk.injEq] at h4
      obtain ⟨h5, h6⟩ := h4
      subst h5
      subst h6
      obtain ⟨m4, m5⟩ := ih (store.set r d') s2 ret2 hnd2 hp
      obtain ⟨hsub, _, c3, _⟩ := stdLoop_master rs (store.set r d') s2 ret2 hp
      have hrow : r ∉ ret2 := fun hx => hnr (hsub.subset hx)
      have hsr : s2.getD r [] = d' := by
        rw [c3 r hrow, getD_set_self store r d' hr]
      obtain ⟨std, hstd, hd'⟩ := stdProcess_some ho
      refine ⟨?_, ?_⟩
      · intro r2 hr2 k hk
        rcases List.mem_cons.mp hr2 with rfl | hmem
        · rw [hsr, hd', lookup_dictSet_ne _ _ hk]
        · have hr2r : r2 ≠ r := fun hx => hnr (hx ▸ hsub.subset hmem)
          rw [m4 r2 hmem k hk, getD_set_ne store r r2 d' hr2r]
      · intro r2 hr2
        rcases List.mem_cons.mp hr2 with rfl | hmem
        · rw [hsr, hd', lookup_dictSet_self, hstd]
          rfl
        · have hr2r : r2 ≠ r := fun hx => hnr (hx ▸ hsub.subset hmem)
          rw [m5 r2 hmem, getD_set_ne store r r2 d' hr2r]

theorem stdLoop_of_fixed : ∀ (ret : List Nat) (store : Store),
    (∀ r ∈ ret, r < store.length ∧
      stdProcess (store.getD r []) = Except.ok (some (store.getD r []))) →
    stdLoop store ret = Except.ok (store, ret) := by
  intro ret
  induction ret with
  | nil => intro store _; rfl
  | cons r rs ih =>
    intro store hfix
    obtain ⟨hr, hp⟩ := hfix r (List.mem_cons_self _ _)
    show (stdProcess (store.getD r []) >>= fun o =>
      match o with
      | none => stdLoop store rs
      | some d' => (stdLoop (store.set r d') rs >>= fun p =>
          Except.ok (p.1, r :: p.2))) = Except.ok (store, r :: rs)
    rw [hp]
    show (stdLoop (store.set r (store.getD r [])) rs >>= fun p =>
        Except.ok (p.1, r :: p.2)) = Except.ok (store, r :: rs)
    rw [set_getD_self store r hr,
        ih store (fun r2 h2 => hfix r2 (List.mem_cons_of_mem _ h2))]
    rfl

/-- C8: `standardize_date` mutates the retained dictionaries in place: the
returned list is a subsequence of the input references (the very same heap
objects), the heap keeps its size, every non-retained dictionary is left
untouched, no key other than `date` of any retained dictionary changes, and
each retained dictionary's `date` is overwritten with the standardized form
of its original value. -/
theorem standardize_date_in_place {store store' : Store} {refs ret : List Nat}
    (hnd : refs.Nodup)
    (h : standardize_date store refs = Except.ok (store', ret)) :
    ret.Sublist refs ∧
    store'.length = store.length ∧
    (∀ i, i ∉ ret → store'.getD i [] = store.getD i []) ∧
    (∀ r ∈ ret, ∀ k, k ≠ "date" →
      List.lookup k (store'.getD r []) = List.lookup k (store.getD r [])) ∧
    (∀ r ∈ ret, List.lookup "date" (store'.getD r []) =
      (stdDateStr (dateStrD (store.getD r []))).map JVal.str) := by
  unfold standardize_date at h
  by_cases he : refs.isEmpty = true
  · rw [if_pos he] at h
    cases h
  · rw [if_neg he] at h
    obtain ⟨c1, c2, c3, _⟩ := stdLoop_master refs store store' ret h
    obtain ⟨c4, c5⟩ := stdLoop_mut refs store store' ret hnd h
    exact ⟨c1, c2, c3, c4, c5⟩

/-- Witness for C8 on a two-dict heap: the match with date `Okt 15 2023` is
retained and rewritten, the `? ? ?` one is dropped untouched. -/
theorem standardize_date_in_place_witness :
    wStdOut.2.Sublist [0, 1] ∧
    wStdOut.1.length = wStore.length ∧
    (∀ i, i ∉ wStdOut.2 → wStdOut.1.getD i [] = wStore.getD i []) ∧
    (∀ r ∈ wStdOut.2, ∀ k, k ≠ "date" →
      List.lookup k (wStdOut.1.getD r []) =
        List.lookup k (wStore.getD r [])) ∧
    (∀ r ∈ wStdOut.2, List.lookup "date" (wStdOut.1.getD r []) =
      (stdDateStr (dateStrD (wStore.getD r []))).map JVal.str) :=
  standardize_date_in_place (by decide) rfl

/-- C9: `standardize_date` is idempotent on its own output: whenever it
returns a non-empty result, running it again on that result returns the same
heap and the same list of retained references. -/
theorem standardize_date_idempotent {store store' : Store}
    {refs ret : List Nat}
    (h : standardize_date store refs = Except.ok (store', ret))
    (hne : ret ≠ []) :
    standardize_date store' ret = Except.ok (store', ret) := by
  unfold standardize_date at h ⊢
  by_cases he : refs.isEmpty = true
  · rw [if_pos he] at h
    cases h
  · rw [if_neg he] at h
    rw [if_neg (by
      intro hx
      apply hne
      cases ret with
      | nil => rfl
      | cons a t => cases hx)]
    obtain ⟨_, _, _, c4⟩ := stdLoop_master refs store store' ret h
    exact stdLoop_of_fixed ret store' c4

/-- Witness for C9: a second pass over the standardized two-dict heap
returns it unchanged. -/
theorem standardize_date_idempotent_witness :
    standardize_date wStdOut.1 wStdOut.2 =
      Except.ok (wStdOut.1, wStdOut.2) :=
  @standardize_date_idempotent wStore wStdOut.1 [0, 1] wStdOut.2 rfl
    (fun h => absurd (congrArg List.length h) (by decide))
